import Mathlib

/-!
# gin-adapter: bridging standard HTTP middleware into a gin handler chain

A shallow embedding of `adapter.go`.

* Go interface values (`http.ResponseWriter`, `gin.ResponseWriter`) are records
  of their methods, each method a state transformer on the response `Store`.
* Pointers are addresses (`Nat`); the objects they point to live in the maps of
  `World` (`ctxs` for `*gin.Context`, `states` for `*middlewareCtx`).
* A function that may panic returns an `Outcome`; deferred calls are run by
  `Outcome.unwind`.
* The code the adapter is called by and calls into is not part of the package:
  the body of a wrapped `http.Handler` and of a native gin handler is a tree of
  the interactions it may have (`HandlerProg`, `GinProg`), and gin's `Next` and
  `Abort` are modelled after the framework (`Context.Next`, `Context.Abort`).
  The functions of `adapter.go` take the framework's `Next` as an argument.
* `World.trace` is a ghost log of handler runs, sentinel invocations, aborts and
  of the beginning and the return of each call of `Next`; `World.assigns` is a
  ghost log of the assignments to `c.Request` and `c.Writer`. No function of the
  package reads them.
-/

namespace Adapter

/-! ## Values stored in a `context.Context` -/

/-- Keys of `context.WithValue` (Go `any`, compared with `==`): a string, or a
`*connectHandler` pointer given by its address. -/
inductive Key where
  | str (s : String)
  | connectHandlerPtr (addr : Nat)
  deriving DecidableEq, Repr

/-- Values of `context.WithValue` (Go `any`): a string, a `*middlewareCtx`
pointer given by its address, or a value of some other dynamic type. -/
inductive Value where
  | str (s : String)
  | middlewareCtxPtr (addr : Nat)
  | other (tag : Nat)
  deriving DecidableEq, Repr

/-- A `context.Context`: the chain of `WithValue` links, innermost first; the
empty chain is `context.Background()`. -/
abbrev Ctx := List (Key × Value)

/-- The call `context.WithValue(parent, key, val)`. -/
def WithValue (parent : Ctx) (key : Key) (val : Value) : Ctx := (key, val) :: parent

/-- The call `ctx.Value(key)`: the innermost link with an equal key, `none` for Go `nil`. -/
def Ctx.Value : Ctx → Key → Option Value
  | [], _ => none
  | (k, v) :: parent, key => if k = key then some v else Ctx.Value parent key

/-- An `*http.Request`, reduced to the parts the adapter and the tests read. -/
structure Request where
  method : String
  url : String
  ctx : Ctx
  deriving DecidableEq, Repr

/-- The call `r.Context()`. -/
def Request.Context (r : Request) : Ctx := r.ctx

/-- The call `r.WithContext(ctx)`: a shallow copy of `r` with its context replaced. -/
def Request.WithContext (r : Request) (ctx : Ctx) : Request := { r with ctx := ctx }

/-! ## Response writers -/

/-- The mutable response state behind the writers of one request. `calls` is a
log of the operations performed on the underlying objects. -/
structure Store where
  headers : List (String × String)
  body : List Nat
  code : Int
  status : Int
  size : Int
  calls : List String
  deriving DecidableEq, Repr

/-- The interface `http.ResponseWriter` as the record of its three methods. -/
structure ResponseWriter where
  Header : Store → List (String × String) × Store
  Write : List Nat → Store → (Int × Option String) × Store
  WriteHeader : Int → Store → Store

/-- The interface `gin.ResponseWriter`: `http.ResponseWriter` plus the methods gin adds
(`http.Hijacker`, `http.Flusher`, `http.CloseNotifier` and gin's own). -/
structure GinResponseWriter extends ResponseWriter where
  Status : Store → Int × Store
  Size : Store → Int × Store
  Written : Store → Bool × Store
  WriteString : String → Store → (Int × Option String) × Store
  WriteHeaderNow : Store → Store
  Flush : Store → Store
  Hijack : Store → Option String × Store
  CloseNotify : Store → Nat × Store
  Pusher : Store → Option Nat × Store

/-- The struct `swappedResponseWriter`: an embedded `gin.ResponseWriter` and the field `w`. -/
structure swappedResponseWriter where
  ResponseWriter : GinResponseWriter
  w : Adapter.ResponseWriter

/-- The function `swap`. -/
def swap (gw : GinResponseWriter) (hw : ResponseWriter) : swappedResponseWriter :=
  { ResponseWriter := gw, w := hw }

/-- The method `swappedResponseWriter.Header`. -/
def swappedResponseWriter.Header (w : swappedResponseWriter) :
    Store → List (String × String) × Store :=
  w.w.Header

/-- The method `swappedResponseWriter.Write`. -/
def swappedResponseWriter.Write (w : swappedResponseWriter) (b : List Nat) :
    Store → (Int × Option String) × Store :=
  w.w.Write b

/-- The method `swappedResponseWriter.WriteHeader`. -/
def swappedResponseWriter.WriteHeader (w : swappedResponseWriter) (statusCode : Int) :
    Store → Store :=
  w.w.WriteHeader statusCode

/-- The method set of `swappedResponseWriter` seen through the interface
`gin.ResponseWriter`: the three methods declared on the struct shadow the embedded
ones, every other method is promoted from the embedded field. -/
def swappedResponseWriter.toGin (w : swappedResponseWriter) : GinResponseWriter :=
  { Header := w.Header
    Write := w.Write
    WriteHeader := w.WriteHeader
    Status := w.ResponseWriter.Status
    Size := w.ResponseWriter.Size
    Written := w.ResponseWriter.Written
    WriteString := w.ResponseWriter.WriteString
    WriteHeaderNow := w.ResponseWriter.WriteHeaderNow
    Flush := w.ResponseWriter.Flush
    Hijack := w.ResponseWriter.Hijack
    CloseNotify := w.ResponseWriter.CloseNotify
    Pusher := w.ResponseWriter.Pusher }

/-! ## The gin context, relay records and the world -/

/-- What a native gin handler reads and assigns through its `*gin.Context`: the
exported fields `c.Request` and `c.Writer`, and the response store behind the writers. -/
structure Visible where
  Request : Request
  Writer : GinResponseWriter
  store : Store

/-- The body of an `http.Handler`, as the tree of its interactions: effects on the
response store through the writers it holds, calls of a `*connectHandler` (the
only handler of this package it can be given), a return or a panic. -/
inductive HandlerProg where
  | ret : HandlerProg
  | panic (msg : String) : HandlerProg
  | store (f : Store → Store) (k : Store → HandlerProg) : HandlerProg
  | callConnect (h : Nat) (w : ResponseWriter) (r : Request) (k : HandlerProg) : HandlerProg

/-- An `http.Handler`: its `ServeHTTP(w, r)`. -/
abbrev Handler := ResponseWriter → Request → HandlerProg

/-- The body of a native `gin.HandlerFunc`, as the tree of its interactions: `act`
reads and assigns `c.Request`, `c.Writer` and uses the writers, `next` is
`c.Next()`, `abort` is `c.Abort()`. -/
inductive GinProg where
  | ret : GinProg
  | panic (msg : String) : GinProg
  | act (f : Visible → Visible) (k : Visible → GinProg) : GinProg
  | next (k : GinProg) : GinProg
  | abort (k : GinProg) : GinProg

/-- A `gin.HandlerFunc` value: a native handler, or the closure returned by
`makeGinHandler(h)` inside `New`, which captures `nextHandler` and `h`. -/
inductive HandlerFunc where
  | native (body : GinProg)
  | adapted (nextHandler : Nat) (h : Handler)

/-- Modelled from the spec: the framework's per-request context (`gin.Context`, an
external collaborator absent from the sources). `Request` and `Writer` are its
exported fields, `handlers` and `index` are the chain and the position in it. -/
structure Context where
  Request : Request
  Writer : GinResponseWriter
  handlers : List HandlerFunc
  index : Int

/-- The struct `middlewareCtx`; `ctx` is the address of a `gin.Context`. -/
structure middlewareCtx where
  ctx : Nat
  childCalled : Bool

/-- Ghost events: the chain loop ran the handler at a position; an `http.Handler`
body invoked the `*connectHandler` at address `h` with a request whose context
holds `v` under the key `h`; `c.Abort()` was called; a call of `c.Next()` began;
a call of `c.Next()` returned. -/
inductive Event where
  | handler (c : Nat) (idx : Int)
  | connect (h : Nat) (v : Option Value)
  | abort (c : Nat)
  | next (c : Nat)
  | nextDone (c : Nat)
  deriving DecidableEq, Repr

/-- Ghost record of an assignment to an exported field of the gin context at
address `c`. -/
inductive Assign where
  | Request (c : Nat) (r : Request)
  | Writer (c : Nat)
  deriving DecidableEq, Repr

/-- The state of the program: the heap of gin contexts and of relay records (by
address), the next free address, the response store, the ghost trace and the
ghost log of the assignments to `c.Request` and `c.Writer`, in the order made. -/
structure World where
  ctxs : Nat → Context
  states : Nat → middlewareCtx
  free : Nat
  store : Store
  trace : List Event
  assigns : List Assign

/-- The result of running code: normal return, a panic that unwinds to the caller
(with the state the unwinding left), or exhausted fuel. -/
inductive Outcome where
  | ok (σ : World)
  | panic (msg : String) (σ : World)
  | timeout

/-- Assignment `c.Request = r` through the pointer `c`. -/
def World.setRequest (σ : World) (c : Nat) (r : Request) : World :=
  { σ with
    ctxs := Function.update σ.ctxs c { σ.ctxs c with Request := r }
    assigns := σ.assigns ++ [Assign.Request c r] }

/-- Assignment `c.Writer = w` through the pointer `c`. -/
def World.setWriter (σ : World) (c : Nat) (w : GinResponseWriter) : World :=
  { σ with
    ctxs := Function.update σ.ctxs c { σ.ctxs c with Writer := w }
    assigns := σ.assigns ++ [Assign.Writer c] }

/-- Assignment `state.childCalled = b` through the pointer `state`. -/
def World.setChildCalled (σ : World) (state : Nat) (b : Bool) : World :=
  { σ with states := Function.update σ.states state { σ.states state with childCalled := b } }

/-- Append a ghost event. -/
def World.log (σ : World) (e : Event) : World :=
  { σ with trace := σ.trace ++ [e] }

/-! ## Allocation -/

/-- The address of `runtime.zerobase`, the base address of every zero-size allocation. -/
def zerobase : Nat := 0

/-- Go's allocator for `new(T)` and a composite literal `&T` of an escaping object
of `size` bytes (`runtime.mallocgc`): a zero-size object is not given storage of
its own, its address is `zerobase`; any other object gets the next free address.
(The language leaves open whether pointers to distinct zero-size variables are
equal; this is what the runtime does for heap objects.) -/
def mallocgc (size : Nat) (free : Nat) : Nat × Nat :=
  if size = 0 then (zerobase, free) else (free, free + 1)

/-- Size in bytes of `connectHandler`, declared `struct{}`. -/
def connectHandler.sizeof : Nat := 0

/-- Size in bytes of `middlewareCtx`: a pointer and a bool, padded. -/
def middlewareCtx.sizeof : Nat := 16

/-! ## The framework operations used by the adapter -/

/-- Modelled from the spec: gin's `abortIndex`, `math.MaxInt8 / 2`. -/
def abortIndex : Int := 63

/-- Conversion of an integer to `int8` (two's complement wrap-around). -/
def int8 (i : Int) : Int := (i + 128) % 256 - 128

/-- Modelled from the spec: the framework's "abort remaining processing" operation
(`c.Abort()` of gin, absent from the sources): `c.index = abortIndex`. -/
def Context.Abort (c : Nat) (σ : World) : World :=
  { σ with
    ctxs := Function.update σ.ctxs c { σ.ctxs c with index := abortIndex }
    trace := σ.trace ++ [Event.abort c] }

/-- The increment `c.index++` on gin's `int8` index. -/
def World.incIndex (σ : World) (c : Nat) : World :=
  { σ with ctxs := Function.update σ.ctxs c { σ.ctxs c with index := int8 ((σ.ctxs c).index + 1) } }

/-! ## The sentinel handler -/

/-- A deferred call registered by `connectHandler.ServeHTTP`, with its argument
evaluated at the `defer` statement. -/
inductive Deferred where
  | restoreRequest (r : Request)
  | restoreWriter (w : GinResponseWriter)

/-- Run one deferred closure: `state.ctx.Request = r`, respectively `state.ctx.Writer = w`. -/
def Deferred.exec (state : Nat) : Deferred → World → World
  | .restoreRequest r, σ => σ.setRequest (σ.states state).ctx r
  | .restoreWriter w, σ => σ.setWriter (σ.states state).ctx w

/-- Run the deferred calls of a returning or panicking function: last registered
first. The list is in registration order. -/
def runDeferred (state : Nat) (ds : List Deferred) (σ : World) : World :=
  ds.foldr (fun d τ => d.exec state τ) σ

/-- What the function leaves once its last statement has returned or panicked:
the deferred calls run in both cases and a panic is passed on. -/
def Outcome.unwind (state : Nat) (ds : List Deferred) : Outcome → Outcome
  | .ok σ => .ok (runDeferred state ds σ)
  | .panic msg σ => .panic msg (runDeferred state ds σ)
  | .timeout => .timeout

/-- The state in which `connectHandler.ServeHTTP` calls `state.ctx.Next()`: after
the three assignments of its body. -/
def connectHandler.enter (state : Nat) (w : ResponseWriter) (r : Request) (σ : World) : World :=
  let σ1 := σ.setRequest (σ.states state).ctx r
  let σ2 := σ1.setWriter (σ1.states state).ctx
    (swap (σ1.ctxs (σ1.states state).ctx).Writer w).toGin
  σ2.setChildCalled state true

/-- The method `connectHandler.ServeHTTP` of the receiver at address `h`. `Next` is
the framework's `c.Next()`. -/
def connectHandler.ServeHTTP (Next : Nat → World → Outcome) (h : Nat)
    (w : ResponseWriter) (r : Request) (σ : World) : Outcome :=
  match r.Context.Value (Key.connectHandlerPtr h) with
  | some (Value.middlewareCtxPtr state) =>
    let d1 := Deferred.restoreRequest (σ.ctxs (σ.states state).ctx).Request
    let d2 := Deferred.restoreWriter (σ.ctxs (σ.states state).ctx).Writer
    let σ3 := connectHandler.enter state w r σ
    (Next (σ3.states state).ctx σ3).unwind state [d1, d2]
  | _ => .panic "interface conversion: interface is not *adapter.middlewareCtx" σ

/-! ## Running handlers -/

/-- Run the body of an `http.Handler`. A call of a `*connectHandler` is recorded in
the ghost trace and runs `connectHandler.ServeHTTP`; a panic is not recovered. -/
def HandlerProg.run (Next : Nat → World → Outcome) : HandlerProg → World → Outcome
  | .ret, σ => .ok σ
  | .panic msg, σ => .panic msg σ
  | .store f k, σ => (k (f σ.store)).run Next { σ with store := f σ.store }
  | .callConnect h w r k, σ =>
    match connectHandler.ServeHTTP Next h w r
        (σ.log (Event.connect h (r.Context.Value (Key.connectHandlerPtr h)))) with
    | .ok σ1 => k.run Next σ1
    | o => o

/-- The `gin.HandlerFunc` returned by `makeGinHandler(h)` in `New`, applied to the
context at address `c`. `nextHandler` is the captured `*connectHandler`. -/
def makeGinHandler (Next : Nat → World → Outcome) (nextHandler : Nat) (h : Handler)
    (c : Nat) (σ : World) : Outcome :=
  let a := mallocgc middlewareCtx.sizeof σ.free
  let state := a.1
  let σ1 : World :=
    { σ with
      states := Function.update σ.states state { ctx := c, childCalled := false }
      free := a.2 }
  let ctx := WithValue (σ1.ctxs c).Request.Context (Key.connectHandlerPtr nextHandler)
    (Value.middlewareCtxPtr state)
  match (h (σ1.ctxs c).Writer.toResponseWriter ((σ1.ctxs c).Request.WithContext ctx)).run Next σ1 with
  | .ok σ2 => if !(σ2.states state).childCalled then .ok (Context.Abort c σ2) else .ok σ2
  | o => o

/-- The world in which the generated handler calls `h.ServeHTTP`: the relay record
of this invocation is allocated, with its flag down. -/
def makeGinHandler.start (c : Nat) (σ : World) : World :=
  { σ with
    states := Function.update σ.states σ.free { ctx := c, childCalled := false }
    free := σ.free + 1 }

/-- The request the generated handler passes to `h.ServeHTTP`: `c.Request` with its
context extended by the relay record of this invocation under the sentinel's key. -/
def makeGinHandler.request (nextHandler : Nat) (c : Nat) (σ : World) : Request :=
  (σ.ctxs c).Request.WithContext (WithValue (σ.ctxs c).Request.Context
    (Key.connectHandlerPtr nextHandler) (Value.middlewareCtxPtr σ.free))

/-- The function `New`: the sentinel handler (its address) and the converter. The
argument and the last component are the allocator's next free address. -/
def New (free : Nat) : (Nat × (Handler → HandlerFunc)) × Nat :=
  let a := mallocgc connectHandler.sizeof free
  let nextHandler := a.1
  ((nextHandler, fun h => HandlerFunc.adapted nextHandler h), a.2)

/-- The function `Wrap`. The middleware `f` receives the sentinel handler. -/
def Wrap (f : Nat → Handler) (free : Nat) : HandlerFunc × Nat :=
  let n := New free
  (n.1.2 (f n.1.1), n.2)

/-- Run the body of a native gin handler on the context at address `c`. -/
def GinProg.run (Next : Nat → World → Outcome) (c : Nat) : GinProg → World → Outcome
  | .ret, σ => .ok σ
  | .panic msg, σ => .panic msg σ
  | .act f k, σ =>
    let v := f { Request := (σ.ctxs c).Request, Writer := (σ.ctxs c).Writer, store := σ.store }
    (k v).run Next c { ((σ.setRequest c v.Request).setWriter c v.Writer) with store := v.store }
  | .next k, σ =>
    match Next c σ with
    | .ok σ1 => k.run Next c σ1
    | o => o
  | .abort k, σ => k.run Next c (Context.Abort c σ)

/-- Call a `gin.HandlerFunc` with the context at address `c`. -/
def HandlerFunc.call (Next : Nat → World → Outcome) (c : Nat) : HandlerFunc → World → Outcome
  | .native body, σ => body.run Next c σ
  | .adapted nextHandler h, σ => makeGinHandler Next nextHandler h c σ

mutual
/-- Modelled from the spec: the framework's "proceed to next registered handler"
operation (`c.Next()` of gin, absent from the sources): `c.index++`, then the chain
loop. The first argument is fuel. The beginning of the call and its return are
recorded in the ghost trace. -/
def Context.Next : Nat → Nat → World → Outcome
  | 0, _, _ => .timeout
  | fuel + 1, c, σ =>
    match chainLoop fuel c ((σ.log (Event.next c)).incIndex c) with
    | .ok τ => .ok (τ.log (Event.nextDone c))
    | o => o
/-- Modelled from the spec: the loop of gin's `c.Next()`:
`for c.index < int8(len(c.handlers)) { c.handlers[c.index](c); c.index++ }`. Each
handler run is recorded in the ghost trace. -/
def chainLoop : Nat → Nat → World → Outcome
  | 0, _, _ => .timeout
  | fuel + 1, c, σ =>
    if (σ.ctxs c).index < int8 (σ.ctxs c).handlers.length then
      if (σ.ctxs c).index < 0 then .panic "index out of range" σ
      else
        match (σ.ctxs c).handlers[(σ.ctxs c).index.toNat]? with
        | none => .panic "index out of range" σ
        | some hf =>
          match hf.call (Context.Next fuel) c (σ.log (Event.handler c (σ.ctxs c).index)) with
          | .ok σ1 => chainLoop fuel c (σ1.incIndex c)
          | o => o
    else .ok σ
end

/-! ## Frame conditions

`Ext σ τ`: the world `τ` is reached from `σ` by running code of the model. The
allocator only moves forward, relay records allocated in `σ` keep their context
pointer, the ghost trace only grows, the continuation flag of a relay record
allocated in `σ` is raised in `τ` exactly when it was raised in `σ` or a sentinel
was invoked in between with a request carrying that record, the handler chains
are not modified, and an index within `int8` stays within `int8`. -/

/-- The values of an `int8`. -/
def InRange8 (i : Int) : Prop := -128 ≤ i ∧ i ≤ 127


/-- The frame relation between a world and a later one. -/
def Ext (σ τ : World) : Prop :=
  σ.free ≤ τ.free ∧
  (∀ a, a < σ.free → (τ.states a).ctx = (σ.states a).ctx) ∧
  (∃ evs, τ.trace = σ.trace ++ evs ∧
    ∀ a, a < σ.free → ((τ.states a).childCalled = true ↔
      ((σ.states a).childCalled = true ∨
        ∃ h, Event.connect h (some (Value.middlewareCtxPtr a)) ∈ evs))) ∧
  (∀ c, (τ.ctxs c).handlers = (σ.ctxs c).handlers ∧
    (InRange8 (σ.ctxs c).index → InRange8 (τ.ctxs c).index))

/-- A property of the world an outcome carries; exhausted fuel carries none. -/
def Outcome.Sat (P : World → Prop) : Outcome → Prop
  | .ok σ => P σ
  | .panic _ σ => P σ
  | .timeout => True

/-- A `Next` operation that respects the frame relation. -/
def GoodNext (Next : Nat → World → Outcome) : Prop :=
  ∀ c σ, (Next c σ).Sat (Ext σ)

/-! ## Event counts -/

/-- Whether a ghost event is a sentinel invocation. -/
def Event.isConnect : Event → Bool
  | .connect _ _ => true
  | _ => false

/-- The position of the handler whose run on the context at `c` an event records. -/
def Event.position (c : Nat) : Event → Option Int
  | .handler d idx => if d = c then some idx else none
  | _ => none

/-- The positions of the handlers of the context at `c` run in a trace, in order. -/
def positions (c : Nat) (evs : List Event) : List Int := evs.filterMap (Event.position c)

/-- The positions `a, a + 1, ..., b - 1`. -/
def span (a b : Int) : List Int :=
  (List.range (b - a).toNat).map fun (k : Nat) => a + (k : Int)

/-- The sentinel invocations a handler body makes itself while it runs, in order:
the sentinel invoked and what the request's context holds under its key. -/
def HandlerProg.invocations (Next : Nat → World → Outcome) :
    HandlerProg → World → List (Nat × Option Value)
  | .ret, _ => []
  | .panic _, _ => []
  | .store f k, σ => (k (f σ.store)).invocations Next { σ with store := f σ.store }
  | .callConnect h w r k, σ =>
    (h, r.Context.Value (Key.connectHandlerPtr h)) ::
      match connectHandler.ServeHTTP Next h w r
          (σ.log (Event.connect h (r.Context.Value (Key.connectHandlerPtr h)))) with
      | .ok σ1 => k.invocations Next σ1
      | _ => []

/-- One pass over the chain of the context at `c`, seen between two worlds: as long
as `c.Abort()` is not called and the chain has at most 64 handlers, either the
position has not moved and no handler of `c` ran, or the position has moved past
the end of the chain and the handlers after the old position ran once each, in
order. -/
def Pass (c : Nat) (σ τ : World) : Prop :=
  ∀ evs, τ.trace = σ.trace ++ evs → Event.abort c ∉ evs → InRange8 (σ.ctxs c).index →
    (σ.ctxs c).handlers.length ≤ 64 →
    ((τ.ctxs c).index = (σ.ctxs c).index ∧ positions c evs = []) ∨
    ((σ.ctxs c).index < (τ.ctxs c).index ∧
      ((σ.ctxs c).handlers.length : Int) ≤ (τ.ctxs c).index ∧ (τ.ctxs c).index ≤ 127 ∧
      positions c evs = span ((σ.ctxs c).index + 1) (σ.ctxs c).handlers.length)

/-- The chain loop of the context at `c`, seen between two worlds: under the
conditions of `Pass`, it starts at a position that is not negative if it is in
the chain, ends past the end of the chain and ran the handlers from its starting
position on once each, in order. -/
def LoopPass (c : Nat) (σ τ : World) : Prop :=
  ∀ evs, τ.trace = σ.trace ++ evs → Event.abort c ∉ evs → InRange8 (σ.ctxs c).index →
    (σ.ctxs c).handlers.length ≤ 64 →
    ((σ.ctxs c).index < ((σ.ctxs c).handlers.length : Int) → 0 ≤ (σ.ctxs c).index) ∧
    ((σ.ctxs c).handlers.length : Int) ≤ (τ.ctxs c).index ∧ (τ.ctxs c).index ≤ 127 ∧
    (σ.ctxs c).index ≤ (τ.ctxs c).index ∧
    positions c evs = span (σ.ctxs c).index (σ.ctxs c).handlers.length

/-- The world in which the sentinel calls `Next` when the bridge at position `i` of
the chain of `c` is run from `σ` and its middleware, having brought the response
store to `st`, invokes the sentinel at `h1` with the writer `w` and a request `r`
that carries the relay record of this invocation. -/
def bridgeEntry (c h1 : Nat) (i : Int) (w : ResponseWriter) (r : Request) (st : Store)
    (σ : World) : World :=
  connectHandler.enter σ.free w r
    (({ makeGinHandler.start c (σ.log (Event.handler c i)) with store := st }).log
      (Event.connect h1 (some (Value.middlewareCtxPtr σ.free))))

/-- A `Next` operation each returning call of which is a pass over the chain of `c`. -/
def GoodPass (c : Nat) (Next : Nat → World → Outcome) : Prop :=
  ∀ d σ τ, Next d σ = .ok τ → Pass c σ τ

/-! ## Concrete inputs

The handlers, writers and requests of `adapter_test.go`, used to instantiate the
theorems below. -/

/-- The characters of `http.CanonicalHeaderKey`: the first letter and every letter
after a hyphen in upper case, the others in lower case. -/
def canonicalChars : Bool → List Char → List Char
  | _, [] => []
  | upper, ch :: rest =>
    (if upper then ch.toUpper else ch.toLower) :: canonicalChars (ch == '-') rest

/-- The function `http.CanonicalHeaderKey` on keys made of letters, digits and hyphens. -/
def canonicalHeaderKey (k : String) : String := String.mk (canonicalChars true k.toList)

/-- The call `w.Header().Set(k, v)` on the recorder's header map: the entry of the
canonical key is replaced by the single value `v`. -/
def setHeader (k v : String) (s : Store) : Store :=
  { s with
    headers := (s.headers.filter fun e => e.1 != canonicalHeaderKey k) ++
      [(canonicalHeaderKey k, v)]
    calls := s.calls ++ ["Header.Set " ++ k] }

/-- The method `WriteHeaderNow` of gin's writer: on the first write the size leaves
`-1` and the status goes to the underlying recorder. -/
def writeHeaderNow (s : Store) : Store :=
  if s.size = -1 then { s with size := 0, code := s.status } else s

/-- The gin writer of a fresh context writing to an `httptest.ResponseRecorder`. -/
def recorder : GinResponseWriter :=
  { Header := fun s => (s.headers, s)
    Write := fun b s =>
      ((b.length, none),
        { writeHeaderNow s with
          body := (writeHeaderNow s).body ++ b
          size := (writeHeaderNow s).size + b.length
          calls := (writeHeaderNow s).calls ++ ["Write"] })
    WriteHeader := fun code s =>
      if 0 < code ∧ s.status ≠ code ∧ s.size = -1 then
        { s with status := code, calls := s.calls ++ ["WriteHeader"] }
      else { s with calls := s.calls ++ ["WriteHeader"] }
    Status := fun s => (s.status, s)
    Size := fun s => (s.size, s)
    Written := fun s => (decide (s.size ≠ -1), s)
    WriteString := fun str s =>
      ((str.utf8ByteSize, none),
        { writeHeaderNow s with
          body := (writeHeaderNow s).body ++ str.toUTF8.toList.map UInt8.toNat
          size := (writeHeaderNow s).size + str.utf8ByteSize
          calls := (writeHeaderNow s).calls ++ ["WriteString"] })
    WriteHeaderNow := writeHeaderNow
    Flush := writeHeaderNow
    Hijack := fun s => (none, s)
    CloseNotify := fun s => (0, s)
    Pusher := fun s => (none, s) }

/-- The test's `newTestMiddlewareWriter`: `Write` first sets the header
`middle-write`, then writes to the embedded writer. -/
def newTestMiddlewareWriter (w : ResponseWriter) : ResponseWriter :=
  { Header := w.Header
    Write := fun b s => w.Write b (setHeader "middle-write" "true" s)
    WriteHeader := w.WriteHeader }

/-- The test's `testMiddleware.ServeHTTP` around the handler `h`. -/
def testMiddleware (h : Nat) : Handler := fun w r =>
  .store (setHeader "middle-header" "true") fun _ =>
    .callConnect h (newTestMiddlewareWriter w)
      (r.WithContext (WithValue r.Context (Key.str "test") (Value.str "value"))) .ret

/-- The middleware of `TestAbort`: sets a header and does not call its inner handler. -/
def abortMiddleware : Handler := fun _ _ =>
  .store (setHeader "middle-header" "true") fun _ => .ret

/-- A terminal gin handler whose body is `c.Writer.Write(b)`. -/
def writeBytes (b : List Nat) : GinProg :=
  .act (fun v => { v with store := (v.Writer.Write b v.store).2 }) fun _ => .ret

/-- The terminal handler of `TestWrap`: `c.Writer.Write([]byte("test"))`. -/
def writeTest : GinProg := writeBytes [116, 101, 115, 116]


/-- The response state of a fresh recorder. -/
def emptyStore : Store :=
  { headers := [], body := [], code := 0, status := 200, size := -1, calls := [] }

/-- The request `GET /` with the background context. -/
def req0 : Request := { method := "GET", url := "/", ctx := [] }

/-- A middleware that calls its inner handler once, with a request that does not
derive from the one it was given: `h.ServeHTTP(w, freshRequest)`. -/
def freshRequestMiddleware (h : Nat) : Handler := fun w _ =>
  .callConnect h w req0 .ret

/-- Record on the store what `c.Request.Context().Value("test")` is for a handler. -/
def probe (tag : String) (v : Visible) : Visible :=
  { v with
    store := { v.store with
      calls := v.store.calls ++
        [tag ++ (match v.Request.Context.Value (Key.str "test") with
          | some (Value.str x) => x
          | _ => "nil")] } }

/-- The outer middleware of `TestContextPassthrough`: it looks up the context value,
sets `outer-pre`, calls `c.Next()`, sets `outer-post` and looks the value up again. -/
def outerHandler : GinProg :=
  .act (fun v => probe "pre=" { v with store := setHeader "outer-pre" "true" v.store }) fun _ =>
    .next (.act
      (fun v => probe "post=" { v with store := setHeader "outer-post" "true" v.store })
      fun _ => .ret)

/-- The terminal handler of `TestContextPassthrough`: it looks up the context value. -/
def finalHandler : GinProg :=
  .act (probe "final=") fun _ => .ret

/-- The chain of `TestContextPassthrough`. -/
def passthroughChain : List HandlerFunc :=
  [HandlerFunc.native outerHandler, (New 1).1.2 (testMiddleware (New 1).1.1),
    HandlerFunc.native finalHandler]

/-- The chain of `TestAbort`. -/
def abortChain : List HandlerFunc :=
  [(New 1).1.2 abortMiddleware, HandlerFunc.native finalHandler]

/-- A fresh world for one request: the context at every address has the chain `hs`
and has not started, no relay record is allocated. -/
def world0 (hs : List HandlerFunc) : World :=
  { ctxs := fun _ => { Request := req0, Writer := recorder, handlers := hs, index := -1 }
    states := fun _ => { ctx := 0, childCalled := false }
    free := 1
    store := emptyStore
    trace := []
    assigns := [] }

/-- The world of `world0` after the relay record at address 1 was allocated for the
context at address 0. -/
def world1 (hs : List HandlerFunc) : World :=
  { world0 hs with free := 2 }

/-- A request whose context carries the relay record at address 1 under the key of
the sentinel at address `h`. -/
def req1 (h : Nat) : Request :=
  req0.WithContext (WithValue req0.Context (Key.connectHandlerPtr h) (Value.middlewareCtxPtr 1))

/-- The chain of `TestWrap`: the bridge around `testMiddleware`, then the terminal
handler that writes. The sentinel is the one `New` returns. -/
def wrapChain : List HandlerFunc :=
  [(Wrap testMiddleware 1).1, HandlerFunc.native writeTest]

/-- A chain with, after the bridge, a native handler that calls `c.Next()` itself, a
second bridge and a terminal handler. -/
def nestedChain : List HandlerFunc :=
  [HandlerFunc.adapted 0 (testMiddleware 0), HandlerFunc.native (.next .ret),
    HandlerFunc.adapted 0 (testMiddleware 0), HandlerFunc.native writeTest]

/-- A chain whose first handler after the bridge calls `c.Abort()`. -/
def abortingChain : List HandlerFunc :=
  [HandlerFunc.adapted 0 (testMiddleware 0), HandlerFunc.native (.abort .ret),
    HandlerFunc.native writeTest]

/-- A chain whose first handler after the bridge panics. -/
def panickingChain : List HandlerFunc :=
  [HandlerFunc.adapted 0 (testMiddleware 0), HandlerFunc.native (.panic "boom"),
    HandlerFunc.native writeTest]

/-- A chain whose middleware calls the sentinel once with a fresh request. -/
def freshRequestChain : List HandlerFunc :=
  [HandlerFunc.adapted 0 (freshRequestMiddleware 0), HandlerFunc.native writeTest]

/-- The world in which the chain loop of a fresh request on the chain `hs` calls the
handler at position 0. -/
def atFirstHandler (hs : List HandlerFunc) : World :=
  (((world0 hs).log (Event.next 0)).incIndex 0).log (Event.handler 0 0)

/-- The world an outcome carries. -/
def Outcome.world : Outcome → World
  | .ok σ => σ
  | .panic _ σ => σ
  | .timeout => world0 []

theorem int8_inRange (i : Int) : InRange8 (int8 i) := by
  unfold InRange8 int8; omega

theorem Ext.refl (σ : World) : Ext σ σ :=
  ⟨le_refl _, fun _ _ => rfl, ⟨[], by simp⟩, fun _ => ⟨rfl, id⟩⟩

theorem Ext.trans {σ τ υ : World} (h1 : Ext σ τ) (h2 : Ext τ υ) : Ext σ υ := by
  obtain ⟨f1, s1, ⟨e1, t1, g1⟩, c1⟩ := h1
  obtain ⟨f2, s2, ⟨e2, t2, g2⟩, c2⟩ := h2
  refine ⟨le_trans f1 f2, ?_, ⟨e1 ++ e2, by rw [t2, t1, List.append_assoc], ?_⟩, ?_⟩
  · intro a ha
    exact (s2 a (lt_of_lt_of_le ha f1)).trans (s1 a ha)
  · intro a ha
    rw [g2 a (lt_of_lt_of_le ha f1), g1 a ha]
    simp only [List.mem_append]
    constructor
    · rintro ((h | ⟨h, hm⟩) | ⟨h, hm⟩)
      · exact Or.inl h
      · exact Or.inr ⟨h, Or.inl hm⟩
      · exact Or.inr ⟨h, Or.inr hm⟩
    · rintro (h | ⟨h, hm | hm⟩)
      · exact Or.inl (Or.inl h)
      · exact Or.inl (Or.inr ⟨h, hm⟩)
      · exact Or.inr ⟨h, hm⟩
  · intro c
    exact ⟨(c2 c).1.trans (c1 c).1, fun h => (c2 c).2 ((c1 c).2 h)⟩

theorem Outcome.Sat.mono {P Q : World → Prop} {o : Outcome} (h : o.Sat P)
    (hPQ : ∀ σ, P σ → Q σ) : o.Sat Q := by
  cases o with
  | ok σ => exact hPQ σ h
  | panic msg σ => exact hPQ σ h
  | timeout => trivial

theorem Outcome.Sat.ext_trans {σ τ : World} {o : Outcome} (h1 : Ext σ τ)
    (h : o.Sat (Ext τ)) : o.Sat (Ext σ) :=
  h.mono fun _ h2 => h1.trans h2

/-- A step that leaves the relay records, the allocator and the handler chains
alone and appends to the trace no sentinel invocation carrying a relay record. -/
theorem ext_of_silent (σ τ : World) (evs : List Event) (hfree : τ.free = σ.free)
    (hstates : τ.states = σ.states) (htrace : τ.trace = σ.trace ++ evs)
    (hsilent : ∀ h a, Event.connect h (some (Value.middlewareCtxPtr a)) ∉ evs)
    (hchain : ∀ c, (τ.ctxs c).handlers = (σ.ctxs c).handlers ∧
      (InRange8 (σ.ctxs c).index → InRange8 (τ.ctxs c).index)) : Ext σ τ := by
  refine ⟨by rw [hfree], fun a _ => by rw [hstates], ⟨evs, htrace, ?_⟩, hchain⟩
  intro a _
  rw [hstates]
  constructor
  · exact Or.inl
  · rintro (h | ⟨h, hm⟩)
    · exact h
    · exact absurd hm (hsilent h a)

theorem ext_setRequest (σ : World) (c : Nat) (r : Request) : Ext σ (σ.setRequest c r) := by
  refine ext_of_silent σ _ [] rfl rfl (by simp [World.setRequest]) (by simp) ?_
  intro d
  by_cases hd : d = c
  · subst hd; simp [World.setRequest]
  · simp [World.setRequest, Function.update_noteq hd]

theorem ext_setWriter (σ : World) (c : Nat) (w : GinResponseWriter) :
    Ext σ (σ.setWriter c w) := by
  refine ext_of_silent σ _ [] rfl rfl (by simp [World.setWriter]) (by simp) ?_
  intro d
  by_cases hd : d = c
  · subst hd; simp [World.setWriter]
  · simp [World.setWriter, Function.update_noteq hd]

theorem ext_incIndex (σ : World) (c : Nat) : Ext σ (σ.incIndex c) := by
  refine ext_of_silent σ _ [] rfl rfl (by simp [World.incIndex]) (by simp) ?_
  intro d
  by_cases hd : d = c
  · subst hd
    simp only [World.incIndex, Function.update_same, true_and]
    exact fun _ => int8_inRange _
  · simp [World.incIndex, Function.update_noteq hd]

theorem ext_abort (σ : World) (c : Nat) : Ext σ (Context.Abort c σ) := by
  refine ext_of_silent σ _ [Event.abort c] rfl rfl (by simp [Context.Abort]) (by simp) ?_
  intro d
  by_cases hd : d = c
  · subst hd
    simp only [Context.Abort, Function.update_same, true_and]
    exact fun _ => by unfold InRange8 abortIndex; omega
  · simp [Context.Abort, Function.update_noteq hd]

/-- Recording an event other than a sentinel invocation. -/
theorem ext_log_silent (σ : World) (e : Event) (he : e.isConnect = false) : Ext σ (σ.log e) := by
  refine ext_of_silent σ _ [e] rfl rfl rfl ?_ (fun _ => ⟨rfl, id⟩)
  intro h a hm
  simp only [List.mem_singleton] at hm
  subst hm
  simp [Event.isConnect] at he

theorem ext_log_handler (σ : World) (c : Nat) (idx : Int) :
    Ext σ (σ.log (Event.handler c idx)) :=
  ext_log_silent σ _ rfl

theorem ext_store (σ : World) (s : Store) : Ext σ { σ with store := s } :=
  ext_of_silent σ _ [] rfl rfl (by simp) (by simp) (fun _ => ⟨rfl, id⟩)

theorem ext_exec (state : Nat) (d : Deferred) (σ : World) : Ext σ (d.exec state σ) := by
  cases d with
  | restoreRequest r => exact ext_setRequest _ _ _
  | restoreWriter w => exact ext_setWriter _ _ _

theorem ext_runDeferred (state : Nat) (ds : List Deferred) (σ : World) :
    Ext σ (runDeferred state ds σ) := by
  induction ds with
  | nil => exact Ext.refl σ
  | cons d ds ih => exact ih.trans (ext_exec state d _)

theorem sat_unwind {σ : World} {o : Outcome} (state : Nat) (ds : List Deferred)
    (h : o.Sat (Ext σ)) : (o.unwind state ds).Sat (Ext σ) := by
  cases o with
  | ok τ => exact Ext.trans h (ext_runDeferred state ds τ)
  | panic msg τ => exact Ext.trans h (ext_runDeferred state ds τ)
  | timeout => trivial

/-- Recording the invocation and entering the sentinel with the relay record at
`state` is a step of the frame relation: the flag raised is the one the recorded
event names. -/
theorem ext_log_enter (h state : Nat) (w : ResponseWriter) (r : Request) (σ : World) :
    Ext σ (connectHandler.enter state w r
      (σ.log (Event.connect h (some (Value.middlewareCtxPtr state))))) := by
  refine ⟨le_refl _, ?_, ⟨[Event.connect h (some (Value.middlewareCtxPtr state))], rfl, ?_⟩, ?_⟩
  · intro a _
    by_cases ha : a = state
    · subst ha
      simp [connectHandler.enter, World.setChildCalled, World.setWriter, World.setRequest,
        World.log]
    · simp [connectHandler.enter, World.setChildCalled, World.setWriter, World.setRequest,
        World.log, Function.update_noteq ha]
  · intro a _
    by_cases ha : a = state
    · subst ha
      simp [connectHandler.enter, World.setChildCalled, World.setWriter, World.setRequest,
        World.log]
    · simp [connectHandler.enter, World.setChildCalled, World.setWriter, World.setRequest,
        World.log, Function.update_noteq ha, ha]
  · intro c
    by_cases hc : c = (σ.states state).ctx
    · subst hc
      simp [connectHandler.enter, World.setChildCalled, World.setWriter, World.setRequest,
        World.log]
    · simp [connectHandler.enter, World.setChildCalled, World.setWriter, World.setRequest,
        World.log, Function.update_noteq hc]

theorem sat_ServeHTTP {Next : Nat → World → Outcome} (hN : GoodNext Next) (h : Nat)
    (w : ResponseWriter) (r : Request) (σ : World) :
    (connectHandler.ServeHTTP Next h w r
      (σ.log (Event.connect h (r.Context.Value (Key.connectHandlerPtr h))))).Sat (Ext σ) := by
  unfold connectHandler.ServeHTTP
  split
  · rename_i state heq
    rw [heq]
    exact sat_unwind _ _ ((hN _ _).ext_trans (ext_log_enter h state w r σ))
  · rename_i hno
    refine ext_of_silent σ _ [Event.connect h (r.Context.Value (Key.connectHandlerPtr h))]
      rfl rfl rfl ?_ (fun _ => ⟨rfl, id⟩)
    intro h' a hm
    simp only [List.mem_singleton, Event.connect.injEq] at hm
    exact hno a hm.2.symm

theorem sat_HandlerProg_run {Next : Nat → World → Outcome} (hN : GoodNext Next)
    (p : HandlerProg) : ∀ σ, (p.run Next σ).Sat (Ext σ) := by
  induction p with
  | ret => intro σ; exact Ext.refl σ
  | panic msg => intro σ; exact Ext.refl σ
  | store f k ih =>
    intro σ
    simp only [HandlerProg.run]
    exact (ih _ _).ext_trans (ext_store σ _)
  | callConnect h w r k ih =>
    intro σ
    simp only [HandlerProg.run]
    have hs := sat_ServeHTTP hN h w r σ
    revert hs
    cases connectHandler.ServeHTTP Next h w r
        (σ.log (Event.connect h (r.Context.Value (Key.connectHandlerPtr h)))) with
    | ok σ1 => intro hs; exact (ih σ1).ext_trans hs
    | panic msg σ1 => intro hs; exact hs
    | timeout => intro _; trivial

theorem ext_alloc (σ : World) (m : middlewareCtx) :
    Ext σ { σ with states := Function.update σ.states σ.free m, free := σ.free + 1 } := by
  refine ⟨Nat.le_succ _, ?_, ⟨[], by simp, ?_⟩, fun _ => ⟨rfl, id⟩⟩
  · intro a ha
    simp [Function.update_noteq (Nat.ne_of_lt ha)]
  · intro a ha
    simp [Function.update_noteq (Nat.ne_of_lt ha)]

theorem mallocgc_middlewareCtx (free : Nat) :
    mallocgc middlewareCtx.sizeof free = (free, free + 1) := by
  simp [mallocgc, middlewareCtx.sizeof]

theorem sat_makeGinHandler {Next : Nat → World → Outcome} (hN : GoodNext Next)
    (nextHandler : Nat) (h : Handler) (c : Nat) (σ : World) :
    (makeGinHandler Next nextHandler h c σ).Sat (Ext σ) := by
  unfold makeGinHandler
  simp only [mallocgc_middlewareCtx]
  generalize h _ _ = p
  have hs := (sat_HandlerProg_run hN p
    { σ with states := Function.update σ.states σ.free { ctx := c, childCalled := false },
             free := σ.free + 1 }).ext_trans (ext_alloc σ _)
  revert hs
  cases p.run Next _ with
  | ok σ2 =>
    intro hs
    dsimp only
    split
    · exact Ext.trans hs (ext_abort _ _)
    · exact hs
  | panic msg σ2 => intro hs; exact hs
  | timeout => intro _; trivial

theorem sat_GinProg_run {Next : Nat → World → Outcome} (hN : GoodNext Next) (c : Nat)
    (p : GinProg) : ∀ σ, (p.run Next c σ).Sat (Ext σ) := by
  induction p with
  | ret => intro σ; exact Ext.refl σ
  | panic msg => intro σ; exact Ext.refl σ
  | act f k ih =>
    intro σ
    simp only [GinProg.run]
    exact (ih _ _).ext_trans
      (((ext_setRequest _ _ _).trans (ext_setWriter _ _ _)).trans (ext_store _ _))
  | next k ih =>
    intro σ
    simp only [GinProg.run]
    have hs := hN c σ
    revert hs
    cases Next c σ with
    | ok σ1 => intro hs; exact (ih σ1).ext_trans hs
    | panic msg σ1 => intro hs; exact hs
    | timeout => intro _; trivial
  | abort k ih =>
    intro σ
    simp only [GinProg.run]
    exact (ih _).ext_trans (ext_abort _ _)

theorem sat_call {Next : Nat → World → Outcome} (hN : GoodNext Next) (c : Nat)
    (hf : HandlerFunc) (σ : World) : (hf.call Next c σ).Sat (Ext σ) := by
  cases hf with
  | native body => exact sat_GinProg_run hN c body σ
  | adapted nextHandler h => exact sat_makeGinHandler hN nextHandler h c σ

theorem sat_Next_chainLoop (fuel : Nat) :
    (∀ c σ, (Context.Next fuel c σ).Sat (Ext σ)) ∧
    (∀ c σ, (chainLoop fuel c σ).Sat (Ext σ)) := by
  induction fuel with
  | zero =>
    constructor <;> intro c σ
    · simp [Context.Next, Outcome.Sat]
    · simp [chainLoop, Outcome.Sat]
  | succ fuel ih =>
    obtain ⟨ihN, ihL⟩ := ih
    constructor <;> intro c σ
    · simp only [Context.Next]
      have hs := (ihL c ((σ.log (Event.next c)).incIndex c)).ext_trans
        ((ext_log_silent σ (Event.next c) rfl).trans (ext_incIndex _ c))
      revert hs
      cases chainLoop fuel c ((σ.log (Event.next c)).incIndex c) with
      | ok τ => intro hs; exact Ext.trans hs (ext_log_silent τ (Event.nextDone c) rfl)
      | panic msg τ => intro hs; exact hs
      | timeout => intro _; trivial
    · simp only [chainLoop]
      split
      · split
        · exact Ext.refl σ
        · split
          · exact Ext.refl σ
          · rename_i hf _
            have hs := (sat_call ihN c hf (σ.log (Event.handler c (σ.ctxs c).index))).ext_trans
              (ext_log_handler σ _ _)
            revert hs
            cases hf.call (Context.Next fuel) c (σ.log (Event.handler c (σ.ctxs c).index)) with
            | ok σ1 =>
              intro hs
              exact ((ihL c _).ext_trans (ext_incIndex σ1 c)).ext_trans hs
            | panic msg σ1 => intro hs; exact hs
            | timeout => intro _; trivial
      · exact Ext.refl σ

theorem goodNext_Next (fuel : Nat) : GoodNext (Context.Next fuel) :=
  (sat_Next_chainLoop fuel).1

/-! ## The sentinel handler: substitution and restoration -/

theorem enter_states_ctx (state : Nat) (w : ResponseWriter) (r : Request) (σ : World) (a : Nat) :
    ((connectHandler.enter state w r σ).states a).ctx = (σ.states a).ctx := by
  by_cases ha : a = state
  · subst ha; simp [connectHandler.enter, World.setChildCalled, World.setWriter, World.setRequest]
  · simp [connectHandler.enter, World.setChildCalled, World.setWriter, World.setRequest,
      Function.update_noteq ha]

theorem enter_free (state : Nat) (w : ResponseWriter) (r : Request) (σ : World) :
    (connectHandler.enter state w r σ).free = σ.free := rfl

theorem runDeferred_pair (state : Nat) (r0 : Request) (w0 : GinResponseWriter) (τ : World) :
    runDeferred state [Deferred.restoreRequest r0, Deferred.restoreWriter w0] τ =
      (τ.setWriter (τ.states state).ctx w0).setRequest (τ.states state).ctx r0 := rfl

theorem restored_fields (c : Nat) (r0 : Request) (w0 : GinResponseWriter) (τ : World) :
    (((τ.setWriter c w0).setRequest c r0).ctxs c).Request = r0 ∧
    (((τ.setWriter c w0).setRequest c r0).ctxs c).Writer = w0 := by
  simp [World.setWriter, World.setRequest]

theorem ServeHTTP_of_relay (Next : Nat → World → Outcome) (h : Nat) (w : ResponseWriter)
    (r : Request) (σ : World) (state : Nat)
    (hrel : r.Context.Value (Key.connectHandlerPtr h) = some (Value.middlewareCtxPtr state)) :
    connectHandler.ServeHTTP Next h w r σ =
      (Next (σ.states state).ctx (connectHandler.enter state w r σ)).unwind state
        [Deferred.restoreRequest (σ.ctxs (σ.states state).ctx).Request,
         Deferred.restoreWriter (σ.ctxs (σ.states state).ctx).Writer] := by
  unfold connectHandler.ServeHTTP
  rw [hrel]
  simp only [enter_states_ctx]

theorem ServeHTTP_of_no_relay (Next : Nat → World → Outcome) (h : Nat) (w : ResponseWriter)
    (r : Request) (σ : World)
    (hno : ∀ state, r.Context.Value (Key.connectHandlerPtr h) ≠
      some (Value.middlewareCtxPtr state)) :
    connectHandler.ServeHTTP Next h w r σ =
      .panic "interface conversion: interface is not *adapter.middlewareCtx" σ := by
  unfold connectHandler.ServeHTTP
  split
  · rename_i state heq
    exact absurd heq (hno state)
  · rfl

theorem next_keeps_relay_ctx (fuel : Nat) (state : Nat) (w : ResponseWriter) (r : Request)
    (σ : World) (halloc : state < σ.free) (c : Nat) :
    (Context.Next fuel c (connectHandler.enter state w r σ)).Sat
      (fun τ => (τ.states state).ctx = (σ.states state).ctx) := by
  refine (goodNext_Next fuel c (connectHandler.enter state w r σ)).mono ?_
  intro τ hτ
  have := hτ.2.1 state (by rw [enter_free]; exact halloc)
  rw [this, enter_states_ctx]

/-- C4: the writer built by `swap gw hw` answers `Header`, `Write` and `WriteHeader`
with the methods of `hw` (whatever `gw` is), and every other method of
`gin.ResponseWriter` with the method of `gw` (whatever `hw` is). -/
theorem swap_routes (gw : GinResponseWriter) (hw : ResponseWriter) :
    (swap gw hw).toGin.Header = hw.Header ∧
    (swap gw hw).toGin.Write = hw.Write ∧
    (swap gw hw).toGin.WriteHeader = hw.WriteHeader ∧
    (swap gw hw).toGin.Status = gw.Status ∧
    (swap gw hw).toGin.Size = gw.Size ∧
    (swap gw hw).toGin.Written = gw.Written ∧
    (swap gw hw).toGin.WriteString = gw.WriteString ∧
    (swap gw hw).toGin.WriteHeaderNow = gw.WriteHeaderNow ∧
    (swap gw hw).toGin.Flush = gw.Flush ∧
    (swap gw hw).toGin.Hijack = gw.Hijack ∧
    (swap gw hw).toGin.CloseNotify = gw.CloseNotify ∧
    (swap gw hw).toGin.Pusher = gw.Pusher :=
  ⟨rfl, rfl, rfl, rfl, rfl, rfl, rfl, rfl, rfl, rfl, rfl, rfl⟩

/-- C2: when the sentinel is invoked with a writer `w` and a request `r` whose context
carries a relay record, it calls the framework's `Next` in a world where the
Request of the gin context is `r`, so every context value of `r` is read there
through `c.Request`. -/
theorem serveHTTP_next_sees_request (Next : Nat → World → Outcome) (h : Nat)
    (w : ResponseWriter) (r : Request) (σ : World) (state : Nat)
    (hrel : r.Context.Value (Key.connectHandlerPtr h) = some (Value.middlewareCtxPtr state)) :
    connectHandler.ServeHTTP Next h w r σ =
      (Next (σ.states state).ctx (connectHandler.enter state w r σ)).unwind state
        [Deferred.restoreRequest (σ.ctxs (σ.states state).ctx).Request,
         Deferred.restoreWriter (σ.ctxs (σ.states state).ctx).Writer] ∧
    ((connectHandler.enter state w r σ).ctxs (σ.states state).ctx).Request = r ∧
    ∀ k, ((connectHandler.enter state w r σ).ctxs (σ.states state).ctx).Request.Context.Value k =
      r.Context.Value k := by
  have hreq : ((connectHandler.enter state w r σ).ctxs (σ.states state).ctx).Request = r := by
    simp [connectHandler.enter, World.setChildCalled, World.setWriter, World.setRequest]
  exact ⟨ServeHTTP_of_relay Next h w r σ state hrel, hreq, fun k => by rw [hreq]⟩

theorem serveHTTP_next_sees_request_witness :
    ((connectHandler.enter 1 recorder.toResponseWriter (req1 0) (world1 [])).ctxs
      ((world1 []).states 1).ctx).Request = req1 0 :=
  (serveHTTP_next_sees_request (fun _ τ => .ok τ) 0 recorder.toResponseWriter (req1 0)
    (world1 []) 1 (by decide)).2.1

/-- C3: when an invocation of the sentinel (on a request carrying an allocated relay
record, with any handlers down the chain) returns normally, the Request and the
Writer of the gin context are the ones it held before the invocation, so the
context values read through `c.Request` afterwards are those of before. -/
theorem serveHTTP_restores_on_return (fuel : Nat) (h : Nat) (w : ResponseWriter)
    (r : Request) (σ σ' : World) (state : Nat)
    (hrel : r.Context.Value (Key.connectHandlerPtr h) = some (Value.middlewareCtxPtr state))
    (halloc : state < σ.free)
    (hret : connectHandler.ServeHTTP (Context.Next fuel) h w r σ = .ok σ') :
    (σ'.ctxs (σ.states state).ctx).Request = (σ.ctxs (σ.states state).ctx).Request ∧
    (σ'.ctxs (σ.states state).ctx).Writer = (σ.ctxs (σ.states state).ctx).Writer ∧
    ∀ k, (σ'.ctxs (σ.states state).ctx).Request.Context.Value k =
      (σ.ctxs (σ.states state).ctx).Request.Context.Value k := by
  rw [ServeHTTP_of_relay _ h w r σ state hrel] at hret
  have hk := next_keeps_relay_ctx fuel state w r σ halloc (σ.states state).ctx
  revert hret hk
  cases Context.Next fuel (σ.states state).ctx (connectHandler.enter state w r σ) with
  | ok τ =>
    intro hret hk
    simp only [Outcome.unwind, Outcome.ok.injEq] at hret
    simp only [Outcome.Sat] at hk
    rw [runDeferred_pair, hk] at hret
    subst hret
    have hf := restored_fields (σ.states state).ctx (σ.ctxs (σ.states state).ctx).Request
      (σ.ctxs (σ.states state).ctx).Writer τ
    exact ⟨hf.1, hf.2, fun k => by rw [hf.1]⟩
  | panic msg τ => intro hret; simp [Outcome.unwind] at hret
  | timeout => intro hret; simp [Outcome.unwind] at hret

theorem serveHTTP_restores_on_return_witness :
    ((connectHandler.ServeHTTP (Context.Next 2) 0 recorder.toResponseWriter (req1 0)
        (world1 [])).world.ctxs ((world1 []).states 1).ctx).Request =
      ((world1 []).ctxs ((world1 []).states 1).ctx).Request :=
  (serveHTTP_restores_on_return 2 0 recorder.toResponseWriter (req1 0) (world1 [])
    (connectHandler.ServeHTTP (Context.Next 2) 0 recorder.toResponseWriter (req1 0)
      (world1 [])).world 1 (by decide) (by decide) rfl).1

/-- C6: if the context of `r` holds no relay record under the sentinel's key (no value,
or a value of another type), `ServeHTTP` panics and leaves the world as it found
it, whatever `Next` is; if it holds one, `ServeHTTP` is the call of `Next` followed
by the restoration. -/
theorem serveHTTP_type_assertion (Next : Nat → World → Outcome) (h : Nat)
    (w : ResponseWriter) (r : Request) (σ : World) :
    ((∀ state, r.Context.Value (Key.connectHandlerPtr h) ≠ some (Value.middlewareCtxPtr state)) →
      connectHandler.ServeHTTP Next h w r σ =
        .panic "interface conversion: interface is not *adapter.middlewareCtx" σ) ∧
    (∀ state, r.Context.Value (Key.connectHandlerPtr h) = some (Value.middlewareCtxPtr state) →
      connectHandler.ServeHTTP Next h w r σ =
        (Next (σ.states state).ctx (connectHandler.enter state w r σ)).unwind state
          [Deferred.restoreRequest (σ.ctxs (σ.states state).ctx).Request,
           Deferred.restoreWriter (σ.ctxs (σ.states state).ctx).Writer]) := by
  constructor
  · intro hno
    exact ServeHTTP_of_no_relay Next h w r σ hno
  · intro state hrel
    exact ServeHTTP_of_relay Next h w r σ state hrel

theorem serveHTTP_type_assertion_witness :
    connectHandler.ServeHTTP (fun _ τ => .ok τ) 0 recorder.toResponseWriter
        (req0.WithContext (WithValue req0.Context (Key.connectHandlerPtr 0) (Value.str "x")))
        (world1 []) =
      .panic "interface conversion: interface is not *adapter.middlewareCtx" (world1 []) :=
  (serveHTTP_type_assertion (fun _ τ => .ok τ) 0 recorder.toResponseWriter
    (req0.WithContext (WithValue req0.Context (Key.connectHandlerPtr 0) (Value.str "x")))
    (world1 [])).1
    (by intro state; simp [Request.WithContext, Request.Context, WithValue, Ctx.Value])

/-- C8: when the framework's `Next` panics inside the sentinel (invoked on a request
carrying an allocated relay record), the deferred calls assign the saved Writer
and then the saved Request to the gin context, which so holds the values of
before the invocation, and the panic is passed on with its message. The log of
assignments shows the order: the sentinel assigned the Request and then the
Writer before `Next`, and the unwinding appends the Writer and then the Request. -/
theorem serveHTTP_restores_on_panic (fuel : Nat) (h : Nat) (w : ResponseWriter)
    (r : Request) (σ τ : World) (state : Nat) (msg : String)
    (hrel : r.Context.Value (Key.connectHandlerPtr h) = some (Value.middlewareCtxPtr state))
    (halloc : state < σ.free)
    (hpanic : Context.Next fuel (σ.states state).ctx (connectHandler.enter state w r σ) =
      .panic msg τ) :
    connectHandler.ServeHTTP (Context.Next fuel) h w r σ =
      .panic msg
        ((τ.setWriter (σ.states state).ctx (σ.ctxs (σ.states state).ctx).Writer).setRequest
          (σ.states state).ctx (σ.ctxs (σ.states state).ctx).Request) ∧
    (((τ.setWriter (σ.states state).ctx (σ.ctxs (σ.states state).ctx).Writer).setRequest
        (σ.states state).ctx (σ.ctxs (σ.states state).ctx).Request).ctxs
          (σ.states state).ctx).Request = (σ.ctxs (σ.states state).ctx).Request ∧
    (((τ.setWriter (σ.states state).ctx (σ.ctxs (σ.states state).ctx).Writer).setRequest
        (σ.states state).ctx (σ.ctxs (σ.states state).ctx).Request).ctxs
          (σ.states state).ctx).Writer = (σ.ctxs (σ.states state).ctx).Writer ∧
    (connectHandler.enter state w r σ).assigns =
      σ.assigns ++ [Assign.Request (σ.states state).ctx r, Assign.Writer (σ.states state).ctx] ∧
    (connectHandler.ServeHTTP (Context.Next fuel) h w r σ).world.assigns =
      τ.assigns ++ [Assign.Writer (σ.states state).ctx,
        Assign.Request (σ.states state).ctx (σ.ctxs (σ.states state).ctx).Request] := by
  have hk := next_keeps_relay_ctx fuel state w r σ halloc (σ.states state).ctx
  rw [hpanic] at hk
  simp only [Outcome.Sat] at hk
  have hf := restored_fields (σ.states state).ctx (σ.ctxs (σ.states state).ctx).Request
    (σ.ctxs (σ.states state).ctx).Writer τ
  have hserve : connectHandler.ServeHTTP (Context.Next fuel) h w r σ =
      .panic msg
        ((τ.setWriter (σ.states state).ctx (σ.ctxs (σ.states state).ctx).Writer).setRequest
          (σ.states state).ctx (σ.ctxs (σ.states state).ctx).Request) := by
    rw [ServeHTTP_of_relay _ h w r σ state hrel, hpanic]
    simp only [Outcome.unwind, runDeferred_pair, hk]
  refine ⟨hserve, hf.1, hf.2, ?_, ?_⟩
  · simp [connectHandler.enter, World.setChildCalled, World.setWriter, World.setRequest]
  · rw [hserve]
    simp [Outcome.world, World.setWriter, World.setRequest]

theorem serveHTTP_restores_on_panic_witness :
    connectHandler.ServeHTTP (Context.Next 2) 0 recorder.toResponseWriter (req1 0)
        (world1 [HandlerFunc.native (GinProg.panic "boom")]) =
      .panic "boom"
        (((Context.Next 2 0 (connectHandler.enter 1 recorder.toResponseWriter (req1 0)
            (world1 [HandlerFunc.native (GinProg.panic "boom")]))).world.setWriter 0
              recorder).setRequest 0 req0) :=
  (serveHTTP_restores_on_panic 2 0 recorder.toResponseWriter (req1 0)
    (world1 [HandlerFunc.native (GinProg.panic "boom")])
    (Context.Next 2 0 (connectHandler.enter 1 recorder.toResponseWriter (req1 0)
      (world1 [HandlerFunc.native (GinProg.panic "boom")]))).world 1 "boom"
    (by decide) (by decide) rfl).1

/-! ## The generated handler: the continuation flag and the abort -/

theorem Ext.trace {σ τ : World} (h : Ext σ τ) : ∃ evs, τ.trace = σ.trace ++ evs := by
  obtain ⟨_, _, ⟨evs, ht, _⟩, _⟩ := h
  exact ⟨evs, ht⟩

theorem serveHTTP_trace {Next : Nat → World → Outcome} (hN : GoodNext Next) (h : Nat)
    (w : ResponseWriter) (r : Request) (σ : World) :
    (connectHandler.ServeHTTP Next h w r σ).Sat (fun τ => ∃ evs, τ.trace = σ.trace ++ evs) := by
  unfold connectHandler.ServeHTTP
  split
  · rename_i state _
    have hs := sat_unwind state
      [Deferred.restoreRequest (σ.ctxs (σ.states state).ctx).Request,
       Deferred.restoreWriter (σ.ctxs (σ.states state).ctx).Writer]
      (hN ((connectHandler.enter state w r σ).states state).ctx (connectHandler.enter state w r σ))
    exact hs.mono fun τ hτ => hτ.trace
  · exact ⟨[], by simp⟩

/-- A handler body that returns without a sentinel invocation in its part of the
trace has only touched the response store. -/
theorem run_quiet {Next : Nat → World → Outcome} (hN : GoodNext Next) (p : HandlerProg) :
    ∀ (τ τ' : World) (evs : List Event), p.run Next τ = .ok τ' →
      τ'.trace = τ.trace ++ evs → (∀ h v, Event.connect h v ∉ evs) →
      τ'.trace = τ.trace ∧ τ'.ctxs = τ.ctxs ∧ τ'.states = τ.states ∧ τ'.free = τ.free := by
  induction p with
  | ret =>
    intro τ τ' evs hrun _ _
    simp only [HandlerProg.run, Outcome.ok.injEq] at hrun
    subst hrun
    exact ⟨rfl, rfl, rfl, rfl⟩
  | panic msg => intro τ τ' evs hrun; simp [HandlerProg.run] at hrun
  | store f k ih =>
    intro τ τ' evs hrun htr hq
    simp only [HandlerProg.run] at hrun
    exact ih (f τ.store) { τ with store := f τ.store } τ' evs hrun htr hq
  | callConnect h w r k ih =>
    intro τ τ' evs hrun htr hq
    exfalso
    simp only [HandlerProg.run] at hrun
    have hs := serveHTTP_trace hN h w r
      (τ.log (Event.connect h (r.Context.Value (Key.connectHandlerPtr h))))
    revert hrun hs
    cases connectHandler.ServeHTTP Next h w r
        (τ.log (Event.connect h (r.Context.Value (Key.connectHandlerPtr h)))) with
    | ok σ1 =>
      intro hrun hs
      obtain ⟨e1, he1⟩ := hs
      have hk := sat_HandlerProg_run hN k σ1
      dsimp only at hrun
      rw [hrun] at hk
      obtain ⟨e2, he2⟩ := Ext.trace hk
      rw [he2, he1] at htr
      simp only [World.log, List.append_assoc] at htr
      have := List.append_cancel_left htr
      exact hq h (r.Context.Value (Key.connectHandlerPtr h)) (by rw [← this]; simp)
    | panic msg σ1 => intro hrun; simp at hrun
    | timeout => intro hrun; simp at hrun

/-- What `makeGinHandler` does with the outcome of `h.ServeHTTP`. -/
theorem makeGinHandler_eq (Next : Nat → World → Outcome) (nextHandler : Nat) (h : Handler)
    (c : Nat) (σ : World) :
    makeGinHandler Next nextHandler h c σ =
      match (h (σ.ctxs c).Writer.toResponseWriter
          (makeGinHandler.request nextHandler c σ)).run Next (makeGinHandler.start c σ) with
      | .ok σ2 => if !(σ2.states σ.free).childCalled then .ok (Context.Abort c σ2) else .ok σ2
      | o => o := by
  unfold makeGinHandler makeGinHandler.request makeGinHandler.start
  simp only [mallocgc_middlewareCtx]

/-- The flag of this invocation's relay record after `h.ServeHTTP` has returned:
raised exactly when a sentinel was invoked with a request carrying the record. -/
theorem flag_after_handler (fuel : Nat) (p : HandlerProg) (c : Nat) (σ σ2 : World)
    (evs : List Event)
    (hrun : p.run (Context.Next fuel) (makeGinHandler.start c σ) = .ok σ2)
    (htrace : σ2.trace = σ.trace ++ evs) :
    (σ2.states σ.free).childCalled = true ↔
      ∃ h, Event.connect h (some (Value.middlewareCtxPtr σ.free)) ∈ evs := by
  have hs := sat_HandlerProg_run (goodNext_Next fuel) p (makeGinHandler.start c σ)
  rw [hrun] at hs
  obtain ⟨_, _, ⟨e, he, hflag⟩, _⟩ := hs
  have hlt : σ.free < (makeGinHandler.start c σ).free := Nat.lt_succ_self _
  have hev : e = evs := by
    have : (makeGinHandler.start c σ).trace = σ.trace := rfl
    rw [this, htrace] at he
    exact (List.append_cancel_left he).symm
  rw [hflag σ.free hlt, hev]
  simp [makeGinHandler.start]

theorem chainLoop_done (fuel : Nat) (c : Nat) (σ : World)
    (h : ¬ (σ.ctxs c).index < int8 (σ.ctxs c).handlers.length) :
    chainLoop (fuel + 1) c σ = .ok σ := by
  simp only [chainLoop, if_neg h]

/-- C1: if `h.ServeHTTP` returns without a sentinel invocation, the generated handler
ends with `c.Abort()` on the world `h` left; no handler ran while `h` ran (its part
of the trace is empty), and the chain loop that called the generated handler
stops there, running no further handler of a chain of at most 64 handlers. -/
theorem abort_when_not_continued (fuel n : Nat) (nextHandler : Nat) (h : Handler) (c : Nat)
    (σ σ2 : World) (evs : List Event)
    (hret : (h (σ.ctxs c).Writer.toResponseWriter
      (makeGinHandler.request nextHandler c σ)).run (Context.Next fuel)
        (makeGinHandler.start c σ) = .ok σ2)
    (htrace : σ2.trace = σ.trace ++ evs)
    (hquiet : ∀ h' v, Event.connect h' v ∉ evs)
    (hlen : (σ.ctxs c).handlers.length ≤ 64) :
    makeGinHandler (Context.Next fuel) nextHandler h c σ = .ok (Context.Abort c σ2) ∧
    ((Context.Abort c σ2).ctxs c).index = abortIndex ∧
    evs = [] ∧
    chainLoop (n + 1) c ((Context.Abort c σ2).incIndex c) =
      .ok ((Context.Abort c σ2).incIndex c) := by
  have hflag := flag_after_handler fuel _ c σ σ2 evs hret htrace
  have hfalse : (σ2.states σ.free).childCalled = false := by
    cases hb : (σ2.states σ.free).childCalled with
    | false => rfl
    | true =>
      obtain ⟨h', hm⟩ := hflag.1 hb
      exact absurd hm (hquiet h' _)
  have hq := run_quiet (goodNext_Next fuel) _ _ σ2 evs hret htrace hquiet
  have hchain : (σ2.ctxs c).handlers = (σ.ctxs c).handlers := by
    rw [hq.2.1]; rfl
  refine ⟨?_, by simp [Context.Abort], ?_, ?_⟩
  · rw [makeGinHandler_eq, hret]
    simp [hfalse]
  · have h1 : σ2.trace = σ.trace := hq.1
    rw [h1] at htrace
    have : σ.trace ++ [] = σ.trace ++ evs := by simpa using htrace
    exact (List.append_cancel_left this).symm
  · apply chainLoop_done
    have hi : (((Context.Abort c σ2).incIndex c).ctxs c).index = 64 := by
      simp [World.incIndex, Context.Abort, abortIndex, int8]
    have hh : (((Context.Abort c σ2).incIndex c).ctxs c).handlers = (σ.ctxs c).handlers := by
      simp [World.incIndex, Context.Abort, hchain]
    rw [hi, hh]
    have hl : ((σ.ctxs c).handlers.length : Int) ≤ 64 := by exact_mod_cast hlen
    have : int8 ((σ.ctxs c).handlers.length : Int) = (σ.ctxs c).handlers.length := by
      unfold int8; omega
    rw [this]
    omega

theorem abort_when_not_continued_witness :
    makeGinHandler (Context.Next 5) 0 abortMiddleware 0
        (world0 [HandlerFunc.adapted 0 abortMiddleware, HandlerFunc.native writeTest]) =
      .ok (Context.Abort 0
        ((abortMiddleware recorder.toResponseWriter req0).run (Context.Next 5)
          (makeGinHandler.start 0
            (world0 [HandlerFunc.adapted 0 abortMiddleware,
              HandlerFunc.native writeTest]))).world) :=
  (abort_when_not_continued 5 0 0 abortMiddleware 0
    (world0 [HandlerFunc.adapted 0 abortMiddleware, HandlerFunc.native writeTest])
    ((abortMiddleware recorder.toResponseWriter req0).run (Context.Next 5)
      (makeGinHandler.start 0
        (world0 [HandlerFunc.adapted 0 abortMiddleware, HandlerFunc.native writeTest]))).world
    [] rfl rfl (by simp) (by decide)).1

/-- C10: if `h.ServeHTTP` returned and a sentinel was invoked meanwhile with a
request carrying this invocation's relay record, the flag of the record is raised
and the generated handler returns the world `h` left, without `c.Abort()`; the
sentinel raises the flag before it calls `Next`, and a call of `Next` leaves a
raised flag of an allocated relay record raised. -/
theorem no_abort_when_continued (fuel : Nat) (nextHandler : Nat) (h : Handler) (c : Nat)
    (σ σ' : World) (evs : List Event) (h' : Nat)
    (hret : makeGinHandler (Context.Next fuel) nextHandler h c σ = .ok σ')
    (htrace : σ'.trace = σ.trace ++ evs)
    (hinv : Event.connect h' (some (Value.middlewareCtxPtr σ.free)) ∈ evs) :
    (σ'.states σ.free).childCalled = true ∧
    (h (σ.ctxs c).Writer.toResponseWriter
      (makeGinHandler.request nextHandler c σ)).run (Context.Next fuel)
        (makeGinHandler.start c σ) = .ok σ' ∧
    (∀ w r τ, ((connectHandler.enter σ.free w r τ).states σ.free).childCalled = true) ∧
    (∀ n d a τ, a < τ.free → (τ.states a).childCalled = true →
      (Context.Next n d τ).Sat (fun υ => (υ.states a).childCalled = true)) := by
  have hkeep : ∀ n d a (τ : World), a < τ.free → (τ.states a).childCalled = true →
      (Context.Next n d τ).Sat (fun υ => (υ.states a).childCalled = true) := by
    intro n d a τ ha hflag
    refine (goodNext_Next n d τ).mono ?_
    intro υ hυ
    obtain ⟨_, _, ⟨e, _, hiff⟩, _⟩ := hυ
    exact (hiff a ha).2 (Or.inl hflag)
  rw [makeGinHandler_eq] at hret
  have hs := sat_HandlerProg_run (goodNext_Next fuel)
    (h (σ.ctxs c).Writer.toResponseWriter (makeGinHandler.request nextHandler c σ))
    (makeGinHandler.start c σ)
  revert hret hs
  cases hrun : (h (σ.ctxs c).Writer.toResponseWriter
      (makeGinHandler.request nextHandler c σ)).run (Context.Next fuel)
        (makeGinHandler.start c σ) with
  | ok σ2 =>
    intro hret hs
    obtain ⟨e2, he2⟩ := Ext.trace hs
    have he2' : σ2.trace = σ.trace ++ e2 := he2
    have hflag := flag_after_handler fuel _ c σ σ2 e2 hrun he2'
    dsimp only at hret
    cases hb : (σ2.states σ.free).childCalled with
    | false =>
      exfalso
      rw [hb] at hret
      simp only [Bool.not_false, if_true, Outcome.ok.injEq] at hret
      subst hret
      have ht : σ.trace ++ (e2 ++ [Event.abort c]) = σ.trace ++ evs := by
        rw [← htrace]
        simp [Context.Abort, he2']
      have hevs := List.append_cancel_left ht
      rw [← hevs] at hinv
      simp only [List.mem_append, List.mem_singleton] at hinv
      rcases hinv with hm | hm
      · have := hflag.2 ⟨h', hm⟩
        rw [hb] at this
        exact Bool.noConfusion this
      · exact Event.noConfusion hm
    | true =>
      rw [hb] at hret
      simp only [Bool.not_true, Bool.false_eq_true, if_false, Outcome.ok.injEq] at hret
      subst hret
      refine ⟨hb, rfl, ?_, hkeep⟩
      intro w r τ
      simp [connectHandler.enter, World.setChildCalled]
  | panic msg σ2 => intro hret; simp at hret
  | timeout => intro hret; simp at hret

theorem no_abort_when_continued_witness :
    (((makeGinHandler (Context.Next 5) 0 (testMiddleware 0) 0
        ((world0 [HandlerFunc.adapted 0 (testMiddleware 0),
          HandlerFunc.native writeTest]).incIndex 0)).world).states 1).childCalled = true :=
  (no_abort_when_continued 5 0 (testMiddleware 0) 0
    ((world0 [HandlerFunc.adapted 0 (testMiddleware 0), HandlerFunc.native writeTest]).incIndex 0)
    (makeGinHandler (Context.Next 5) 0 (testMiddleware 0) 0
      ((world0 [HandlerFunc.adapted 0 (testMiddleware 0),
        HandlerFunc.native writeTest]).incIndex 0)).world
    [Event.connect 0 (some (Value.middlewareCtxPtr 1)), Event.next 0, Event.handler 0 1,
      Event.nextDone 0] 0
    rfl rfl (by decide)).1

/-! ## One pass over the chain -/

theorem span_nil (a b : Int) (h : b ≤ a) : span a b = [] := by
  have : (b - a).toNat = 0 := by omega
  simp [span, this]

theorem span_cons (a b : Int) (h : a < b) : span a b = a :: span (a + 1) b := by
  have h1 : (b - a).toNat = (b - (a + 1)).toNat + 1 := by omega
  simp only [span, h1, List.range_succ_eq_map, List.map_cons, List.map_map]
  refine congrArg₂ _ (by simp) ?_
  apply List.map_congr_left
  intro k _
  simp only [Function.comp, Nat.cast_succ]
  omega

theorem count_span (a b j : Int) (h1 : a ≤ j) (h2 : j < b) : (span a b).count j = 1 := by
  apply List.count_eq_one_of_mem
  · unfold span
    apply List.Nodup.map _ (List.nodup_range _)
    intro x y hxy
    simp only at hxy
    omega
  · unfold span
    refine List.mem_map.2 ⟨(j - a).toNat, List.mem_range.2 (by omega), by omega⟩

theorem positions_append (c : Nat) (e1 e2 : List Event) :
    positions c (e1 ++ e2) = positions c e1 ++ positions c e2 := by
  simp [positions, List.filterMap_append]

theorem count_handler_positions (c : Nat) (j : Int) (evs : List Event) :
    evs.count (Event.handler c j) = (positions c evs).count j := by
  induction evs with
  | nil => rfl
  | cons e evs ih =>
    cases e with
    | handler d idx =>
      by_cases hd : d = c
      · subst hd
        by_cases hj : idx = j
        · subst hj
          simp [positions, Event.position, List.filterMap_cons] at ih ⊢
          exact ih
        · have : (Event.handler d idx == Event.handler d j) = false := by
            simp only [beq_eq_false_iff_ne, ne_eq, Event.handler.injEq, true_and]; exact hj
          simp [positions, Event.position, List.filterMap_cons, List.count_cons, this, hj] at ih ⊢
          exact ih
      · have : (Event.handler d idx == Event.handler c j) = false := by
          simp only [beq_eq_false_iff_ne, ne_eq, Event.handler.injEq, not_and]
          exact fun h => absurd h hd
        simp [positions, Event.position, List.filterMap_cons, List.count_cons, this, hd] at ih ⊢
        exact ih
    | connect h v =>
      have : (Event.connect h v == Event.handler c j) = false := by
        simp only [beq_eq_false_iff_ne, ne_eq]; exact fun h => Event.noConfusion h
      simp [positions, Event.position, List.filterMap_cons, List.count_cons, this] at ih ⊢
      exact ih
    | abort d =>
      have : (Event.abort d == Event.handler c j) = false := by
        simp only [beq_eq_false_iff_ne, ne_eq]; exact fun h => Event.noConfusion h
      simp [positions, Event.position, List.filterMap_cons, List.count_cons, this] at ih ⊢
      exact ih
    | next d =>
      have : (Event.next d == Event.handler c j) = false := by
        simp only [beq_eq_false_iff_ne, ne_eq]; exact fun h => Event.noConfusion h
      simp [positions, Event.position, List.filterMap_cons, List.count_cons, this] at ih ⊢
      exact ih
    | nextDone d =>
      have : (Event.nextDone d == Event.handler c j) = false := by
        simp only [beq_eq_false_iff_ne, ne_eq]; exact fun h => Event.noConfusion h
      simp [positions, Event.position, List.filterMap_cons, List.count_cons, this] at ih ⊢
      exact ih

theorem Ext.chain_length {σ τ : World} (h : Ext σ τ) (c : Nat) :
    (τ.ctxs c).handlers.length = (σ.ctxs c).handlers.length := by
  rw [(h.2.2.2 c).1]

theorem pass_trans {c : Nat} {σ τ υ : World} (hE1 : Ext σ τ) (hE2 : Ext τ υ)
    (h1 : Pass c σ τ) (h2 : Pass c τ υ) : Pass c σ υ := by
  intro evs htr hna hin hL
  obtain ⟨e1, he1⟩ := hE1.trace
  obtain ⟨e2, he2⟩ := hE2.trace
  have hevs : evs = e1 ++ e2 := by
    rw [he2, he1, List.append_assoc] at htr
    exact (List.append_cancel_left htr).symm
  subst hevs
  have hna1 : Event.abort c ∉ e1 := fun hm => hna (List.mem_append.2 (Or.inl hm))
  have hna2 : Event.abort c ∉ e2 := fun hm => hna (List.mem_append.2 (Or.inr hm))
  have hlen := hE1.chain_length c
  have hinτ := (hE1.2.2.2 c).2 hin
  have r1 := h1 e1 he1 hna1 hin hL
  have r2 := h2 e2 he2 hna2 hinτ (by rw [hlen]; exact hL)
  rw [hlen] at r2
  rw [positions_append]
  rcases r1 with ⟨a1, a2⟩ | ⟨b1, b2, b3, b4⟩
  · rcases r2 with ⟨a1', a2'⟩ | ⟨b1', b2', b3', b4'⟩
    · exact Or.inl ⟨a1'.trans a1, by rw [a2, a2']; rfl⟩
    · refine Or.inr ⟨by omega, b2', b3', ?_⟩
      rw [a2, b4', a1]; rfl
  · rcases r2 with ⟨a1', a2'⟩ | ⟨b1', b2', b3', b4'⟩
    · refine Or.inr ⟨by omega, by omega, by omega, ?_⟩
      rw [b4, a2', List.append_nil]
    · refine Or.inr ⟨by omega, b2', b3', ?_⟩
      rw [b4, b4', span_nil ((τ.ctxs c).index + 1) _ (by omega), List.append_nil]

/-- A step that leaves the position of `c` alone and runs no handler of `c`. -/
theorem pass_quiet {c : Nat} {σ τ : World} (evs : List Event) (htr : τ.trace = σ.trace ++ evs)
    (hidx : (τ.ctxs c).index = (σ.ctxs c).index) (hpos : positions c evs = []) :
    Pass c σ τ := by
  intro evs' htr' _ _ _
  have : evs' = evs := by
    rw [htr] at htr'
    exact (List.append_cancel_left htr').symm
  subst this
  exact Or.inl ⟨hidx, hpos⟩

theorem pass_setRequest (c d : Nat) (σ : World) (r : Request) : Pass c σ (σ.setRequest d r) := by
  refine pass_quiet [] (by simp [World.setRequest]) ?_ rfl
  by_cases hd : c = d
  · subst hd; simp [World.setRequest]
  · simp [World.setRequest, Function.update_noteq hd]

theorem pass_setWriter (c d : Nat) (σ : World) (w : GinResponseWriter) :
    Pass c σ (σ.setWriter d w) := by
  refine pass_quiet [] (by simp [World.setWriter]) ?_ rfl
  by_cases hd : c = d
  · subst hd; simp [World.setWriter]
  · simp [World.setWriter, Function.update_noteq hd]

theorem pass_store (c : Nat) (σ : World) (s : Store) : Pass c σ { σ with store := s } :=
  pass_quiet [] (by simp) rfl rfl

theorem pass_log (c : Nat) (σ : World) (e : Event) (he : Event.position c e = none) :
    Pass c σ (σ.log e) :=
  pass_quiet [e] rfl rfl (by simp [positions, List.filterMap_cons, he])

theorem pass_alloc (c : Nat) (σ : World) (m : middlewareCtx) :
    Pass c σ { σ with states := Function.update σ.states σ.free m, free := σ.free + 1 } :=
  pass_quiet [] (by simp) rfl rfl

theorem pass_abort (c d : Nat) (σ : World) : Pass c σ (Context.Abort d σ) := by
  by_cases hd : c = d
  · subst hd
    intro evs htr hna _ _
    exfalso
    have : evs = [Event.abort c] := by
      have h : σ.trace ++ [Event.abort c] = σ.trace ++ evs := htr
      exact (List.append_cancel_left h).symm
    rw [this] at hna
    exact hna (List.mem_singleton.2 rfl)
  · refine pass_quiet [Event.abort d] rfl ?_ (by simp [positions, Event.position])
    simp [Context.Abort, Function.update_noteq hd]

theorem pass_incIndex_other (c d : Nat) (σ : World) (hd : c ≠ d) : Pass c σ (σ.incIndex d) := by
  refine pass_quiet [] (by simp [World.incIndex]) ?_ rfl
  simp [World.incIndex, Function.update_noteq hd]

theorem pass_runDeferred (c state : Nat) (ds : List Deferred) (σ : World) :
    Pass c σ (runDeferred state ds σ) := by
  induction ds with
  | nil => exact pass_quiet [] (by simp [runDeferred]) rfl rfl
  | cons d ds ih =>
    refine pass_trans (ext_runDeferred state ds σ) (ext_exec state d _) ih ?_
    cases d with
    | restoreRequest r => exact pass_setRequest _ _ _ _
    | restoreWriter w => exact pass_setWriter _ _ _ _

theorem pass_log_enter (c h state : Nat) (w : ResponseWriter) (r : Request) (σ : World) :
    Pass c σ (connectHandler.enter state w r
      (σ.log (Event.connect h (some (Value.middlewareCtxPtr state))))) := by
  refine pass_quiet [Event.connect h (some (Value.middlewareCtxPtr state))] rfl ?_
    (by simp [positions, Event.position])
  by_cases hc : c = (σ.states state).ctx
  · subst hc
    simp [connectHandler.enter, World.setChildCalled, World.setWriter, World.setRequest,
      World.log]
  · simp [connectHandler.enter, World.setChildCalled, World.setWriter, World.setRequest,
      World.log, Function.update_noteq hc]

theorem Outcome.Sat.of_ok {P : World → Prop} {o : Outcome} {τ : World} (h : o.Sat P)
    (ho : o = .ok τ) : P τ := by
  subst ho; exact h

theorem pass_ServeHTTP {c : Nat} {Next : Nat → World → Outcome} (hN : GoodNext Next)
    (hP : GoodPass c Next) (h : Nat) (w : ResponseWriter) (r : Request) (σ τ : World)
    (hrun : connectHandler.ServeHTTP Next h w r
      (σ.log (Event.connect h (r.Context.Value (Key.connectHandlerPtr h)))) = .ok τ) :
    Pass c σ τ := by
  by_cases hv : ∃ state, r.Context.Value (Key.connectHandlerPtr h) =
      some (Value.middlewareCtxPtr state)
  · obtain ⟨state, hv⟩ := hv
    rw [ServeHTTP_of_relay _ h w r _ state hv, hv] at hrun
    have hE := ext_log_enter h state w r σ
    have hPE := pass_log_enter c h state w r σ
    have hs := hN ((σ.log (Event.connect h (some (Value.middlewareCtxPtr state)))).states state).ctx
      (connectHandler.enter state w r (σ.log (Event.connect h (some (Value.middlewareCtxPtr state)))))
    have hp := hP ((σ.log (Event.connect h (some (Value.middlewareCtxPtr state)))).states state).ctx
      (connectHandler.enter state w r (σ.log (Event.connect h (some (Value.middlewareCtxPtr state)))))
    revert hrun hs hp
    cases Next ((σ.log (Event.connect h (some (Value.middlewareCtxPtr state)))).states state).ctx
      (connectHandler.enter state w r
        (σ.log (Event.connect h (some (Value.middlewareCtxPtr state))))) with
    | ok υ =>
      intro hrun hs hp
      simp only [Outcome.unwind, Outcome.ok.injEq] at hrun
      subst hrun
      exact pass_trans (hE.trans hs) (ext_runDeferred _ _ _)
        (pass_trans hE hs hPE (hp υ rfl)) (pass_runDeferred _ _ _ _)
    | panic msg υ => intro hrun; simp [Outcome.unwind] at hrun
    | timeout => intro hrun; simp [Outcome.unwind] at hrun
  · exfalso
    have := ServeHTTP_of_no_relay Next h w r
      (σ.log (Event.connect h (r.Context.Value (Key.connectHandlerPtr h))))
      (fun state hs => hv ⟨state, hs⟩)
    rw [this] at hrun
    exact Outcome.noConfusion hrun

theorem pass_HandlerProg_run {c : Nat} {Next : Nat → World → Outcome} (hN : GoodNext Next)
    (hP : GoodPass c Next) (p : HandlerProg) :
    ∀ σ τ, p.run Next σ = .ok τ → Pass c σ τ := by
  induction p with
  | ret =>
    intro σ τ hrun
    simp only [HandlerProg.run, Outcome.ok.injEq] at hrun
    subst hrun
    exact pass_quiet [] (by simp) rfl rfl
  | panic msg => intro σ τ hrun; simp [HandlerProg.run] at hrun
  | store f k ih =>
    intro σ τ hrun
    simp only [HandlerProg.run] at hrun
    exact pass_trans (ext_store σ _) ((sat_HandlerProg_run hN _ _).of_ok hrun)
      (pass_store c σ _) (ih _ _ τ hrun)
  | callConnect h w r k ih =>
    intro σ τ hrun
    simp only [HandlerProg.run] at hrun
    cases hserve : connectHandler.ServeHTTP Next h w r
        (σ.log (Event.connect h (r.Context.Value (Key.connectHandlerPtr h)))) with
    | ok σ1 =>
      rw [hserve] at hrun
      dsimp only at hrun
      exact pass_trans ((sat_ServeHTTP hN h w r σ).of_ok hserve)
        ((sat_HandlerProg_run hN k σ1).of_ok hrun)
        (pass_ServeHTTP hN hP h w r σ σ1 hserve) (ih σ1 τ hrun)
    | panic msg σ1 => rw [hserve] at hrun; simp at hrun
    | timeout => rw [hserve] at hrun; simp at hrun

theorem pass_makeGinHandler {c : Nat} {Next : Nat → World → Outcome} (hN : GoodNext Next)
    (hP : GoodPass c Next) (nextHandler : Nat) (h : Handler) (d : Nat) (σ τ : World)
    (hrun : makeGinHandler Next nextHandler h d σ = .ok τ) : Pass c σ τ := by
  rw [makeGinHandler_eq] at hrun
  cases hp : (h (σ.ctxs d).Writer.toResponseWriter
      (makeGinHandler.request nextHandler d σ)).run Next (makeGinHandler.start d σ) with
  | ok σ2 =>
    rw [hp] at hrun
    dsimp only at hrun
    have hE1 : Ext σ (makeGinHandler.start d σ) := ext_alloc σ _
    have hE2 := (sat_HandlerProg_run hN _ _).of_ok hp
    have hP12 := pass_trans hE1 hE2 (pass_alloc c σ _) (pass_HandlerProg_run hN hP _ _ _ hp)
    split at hrun
    · simp only [Outcome.ok.injEq] at hrun
      subst hrun
      exact pass_trans (hE1.trans hE2) (ext_abort _ _) hP12 (pass_abort c d σ2)
    · simp only [Outcome.ok.injEq] at hrun
      subst hrun
      exact hP12
  | panic msg σ2 => rw [hp] at hrun; simp at hrun
  | timeout => rw [hp] at hrun; simp at hrun

theorem pass_GinProg_run {c : Nat} {Next : Nat → World → Outcome} (hN : GoodNext Next)
    (hP : GoodPass c Next) (d : Nat) (p : GinProg) :
    ∀ σ τ, p.run Next d σ = .ok τ → Pass c σ τ := by
  induction p with
  | ret =>
    intro σ τ hrun
    simp only [GinProg.run, Outcome.ok.injEq] at hrun
    subst hrun
    exact pass_quiet [] (by simp) rfl rfl
  | panic msg => intro σ τ hrun; simp [GinProg.run] at hrun
  | act f k ih =>
    intro σ τ hrun
    simp only [GinProg.run] at hrun
    generalize (f ⟨(σ.ctxs d).Request, (σ.ctxs d).Writer, σ.store⟩) = v at hrun
    have hE1 := ext_setRequest σ d v.Request
    have hE2 := ext_setWriter (σ.setRequest d v.Request) d v.Writer
    have hE3 := ext_store ((σ.setRequest d v.Request).setWriter d v.Writer) v.store
    have hP1 := pass_setRequest c d σ v.Request
    have hP2 := pass_setWriter c d (σ.setRequest d v.Request) v.Writer
    have hP3 := pass_store c ((σ.setRequest d v.Request).setWriter d v.Writer) v.store
    exact pass_trans ((hE1.trans hE2).trans hE3) ((sat_GinProg_run hN d _ _).of_ok hrun)
      (pass_trans (hE1.trans hE2) hE3 (pass_trans hE1 hE2 hP1 hP2) hP3) (ih _ _ τ hrun)
  | next k ih =>
    intro σ τ hrun
    simp only [GinProg.run] at hrun
    cases hn : Next d σ with
    | ok σ1 =>
      rw [hn] at hrun
      dsimp only at hrun
      exact pass_trans ((hN d σ).of_ok hn) ((sat_GinProg_run hN d k σ1).of_ok hrun)
        (hP d σ σ1 hn) (ih σ1 τ hrun)
    | panic msg σ1 => rw [hn] at hrun; simp at hrun
    | timeout => rw [hn] at hrun; simp at hrun
  | abort k ih =>
    intro σ τ hrun
    simp only [GinProg.run] at hrun
    exact pass_trans (ext_abort σ d) ((sat_GinProg_run hN d k _).of_ok hrun)
      (pass_abort c d σ) (ih _ τ hrun)

theorem pass_call {c : Nat} {Next : Nat → World → Outcome} (hN : GoodNext Next)
    (hP : GoodPass c Next) (d : Nat) (hf : HandlerFunc) (σ τ : World)
    (hrun : hf.call Next d σ = .ok τ) : Pass c σ τ := by
  cases hf with
  | native body => exact pass_GinProg_run hN hP d body σ τ hrun
  | adapted nextHandler h => exact pass_makeGinHandler hN hP nextHandler h d σ τ hrun

theorem int8_eq (i : Int) (h1 : -128 ≤ i) (h2 : i ≤ 127) : int8 i = i := by
  unfold int8; omega

theorem int8_wrap : int8 (127 + 1) = -128 := by
  unfold int8; omega

theorem incIndex_index (σ : World) (c : Nat) :
    ((σ.incIndex c).ctxs c).index = int8 ((σ.ctxs c).index + 1) := by
  simp [World.incIndex]

theorem positions_handler_cons (c : Nat) (v : Int) (evs : List Event) :
    positions c (Event.handler c v :: evs) = v :: positions c evs := by
  simp [positions, Event.position, List.filterMap_cons]

/-- Every returning call of the model of gin's `Next` is a pass over the chain of
`c`, and so is every returning run of the chain loop on another context; a
returning run of the chain loop on `c` itself is a `LoopPass`. -/
theorem pass_Next_chainLoop (c : Nat) (fuel : Nat) :
    GoodPass c (Context.Next fuel) ∧
    (∀ d σ τ, chainLoop fuel d σ = .ok τ →
      (d ≠ c → Pass c σ τ) ∧ (d = c → LoopPass c σ τ)) := by
  induction fuel with
  | zero =>
    constructor
    · intro d σ τ hrun; simp [Context.Next] at hrun
    · intro d σ τ hrun; simp [chainLoop] at hrun
  | succ fuel ih =>
    obtain ⟨ihN, ihL⟩ := ih
    constructor
    · intro d σ τ hrun
      simp only [Context.Next] at hrun
      cases hl : chainLoop fuel d ((σ.log (Event.next d)).incIndex d) with
      | panic msg τ0 => rw [hl] at hrun; simp at hrun
      | timeout => rw [hl] at hrun; simp at hrun
      | ok τ0 =>
        rw [hl] at hrun
        simp only [Outcome.ok.injEq] at hrun
        subst hrun
        have hE1 : Ext σ (σ.log (Event.next d)) := ext_log_silent σ _ rfl
        have hE2 : Ext (σ.log (Event.next d)) ((σ.log (Event.next d)).incIndex d) :=
          ext_incIndex _ d
        have hE3 : Ext ((σ.log (Event.next d)).incIndex d) τ0 :=
          ((sat_Next_chainLoop fuel).2 d _).of_ok hl
        have hE4 : Ext τ0 (τ0.log (Event.nextDone d)) := ext_log_silent τ0 _ rfl
        by_cases hd : d = c
        · subst hd
          have hLP := (ihL d _ τ0 hl).2 rfl
          intro evs htr hna hin hL
          obtain ⟨e, he⟩ := hE3.trace
          have hevs : evs = Event.next d :: (e ++ [Event.nextDone d]) := by
            have h1 : (τ0.log (Event.nextDone d)).trace =
                σ.trace ++ (Event.next d :: (e ++ [Event.nextDone d])) := by
              simp [World.log, he, World.incIndex]
            rw [h1] at htr
            exact (List.append_cancel_left htr).symm
          subst hevs
          have hnae : Event.abort d ∉ e := by
            intro hm
            exact hna (List.mem_cons_of_mem _ (List.mem_append.2 (Or.inl hm)))
          have hidxN : (((σ.log (Event.next d)).incIndex d).ctxs d).index =
              int8 ((σ.ctxs d).index + 1) := incIndex_index _ d
          have hlenN : (((σ.log (Event.next d)).incIndex d).ctxs d).handlers.length =
              (σ.ctxs d).handlers.length := (hE1.trans hE2).chain_length d
          have r := hLP e he hnae (by rw [hidxN]; exact int8_inRange _) (by rw [hlenN]; exact hL)
          rw [hidxN, hlenN] at r
          obtain ⟨hneg, hLτ, h127, hle, hpos⟩ := r
          have hpe : positions d (Event.next d :: (e ++ [Event.nextDone d])) = positions d e := by
            simp [positions, Event.position, List.filterMap_cons, List.filterMap_append]
          have hiτ : ((τ0.log (Event.nextDone d)).ctxs d).index = (τ0.ctxs d).index := rfl
          rw [hpe, hiτ]
          by_cases h127' : (σ.ctxs d).index = 127
          · exfalso
            rw [h127', int8_wrap] at hneg
            have := hneg (by omega)
            omega
          · have h8 : int8 ((σ.ctxs d).index + 1) = (σ.ctxs d).index + 1 :=
              int8_eq _ (by have := hin.1; omega) (by have := hin.2; omega)
            rw [h8] at hneg hle hpos
            exact Or.inr ⟨by omega, hLτ, h127, hpos⟩
        · have hcd : c ≠ d := fun h => hd h.symm
          exact pass_trans ((hE1.trans hE2).trans hE3) hE4
            (pass_trans (hE1.trans hE2) hE3
              (pass_trans hE1 hE2 (pass_log c σ _ rfl) (pass_incIndex_other c d _ hcd))
              ((ihL d _ τ0 hl).1 hd))
            (pass_log c τ0 _ rfl)
    · intro d σ τ hrun
      simp only [chainLoop] at hrun
      by_cases hcond : (σ.ctxs d).index < int8 (σ.ctxs d).handlers.length
      · rw [if_pos hcond] at hrun
        by_cases hnegi : (σ.ctxs d).index < 0
        · rw [if_pos hnegi] at hrun; simp at hrun
        · rw [if_neg hnegi] at hrun
          cases hg : (σ.ctxs d).handlers[(σ.ctxs d).index.toNat]? with
          | none => rw [hg] at hrun; simp at hrun
          | some hf =>
            rw [hg] at hrun
            dsimp only at hrun
            cases hc : hf.call (Context.Next fuel) d
                (σ.log (Event.handler d (σ.ctxs d).index)) with
            | panic msg σ1 => rw [hc] at hrun; simp at hrun
            | timeout => rw [hc] at hrun; simp at hrun
            | ok σ1 =>
              rw [hc] at hrun
              dsimp only at hrun
              have hE1 : Ext σ (σ.log (Event.handler d (σ.ctxs d).index)) :=
                ext_log_handler σ _ _
              have hE2 : Ext (σ.log (Event.handler d (σ.ctxs d).index)) σ1 :=
                (sat_call (goodNext_Next fuel) d hf _).of_ok hc
              have hE3 : Ext σ1 (σ1.incIndex d) := ext_incIndex σ1 d
              have hE4 : Ext (σ1.incIndex d) τ := ((sat_Next_chainLoop fuel).2 d _).of_ok hrun
              have hP2 : Pass c (σ.log (Event.handler d (σ.ctxs d).index)) σ1 :=
                pass_call (goodNext_Next fuel) ihN d hf _ σ1 hc
              constructor
              · intro hd
                have hcd : c ≠ d := fun h => hd h.symm
                have hpn : Event.position c (Event.handler d (σ.ctxs d).index) = none := by
                  simp [Event.position, hd]
                exact pass_trans ((hE1.trans hE2).trans hE3) hE4
                  (pass_trans (hE1.trans hE2) hE3
                    (pass_trans hE1 hE2 (pass_log c σ _ hpn) hP2)
                    (pass_incIndex_other c d σ1 hcd))
                  ((ihL d _ τ hrun).1 hd)
              · intro hd
                subst hd
                have hLP := (ihL d _ τ hrun).2 rfl
                intro evs htr hna hin hL
                obtain ⟨e1, he1⟩ := hE2.trace
                obtain ⟨e2, he2⟩ := hE4.trace
                have hevs : evs = Event.handler d (σ.ctxs d).index :: (e1 ++ e2) := by
                  have h1 : τ.trace =
                      σ.trace ++ (Event.handler d (σ.ctxs d).index :: (e1 ++ e2)) := by
                    rw [he2]
                    simp [World.incIndex, he1, World.log]
                  rw [h1] at htr
                  exact (List.append_cancel_left htr).symm
                subst hevs
                have hna1 : Event.abort d ∉ e1 := fun hm =>
                  hna (List.mem_cons_of_mem _ (List.mem_append.2 (Or.inl hm)))
                have hna2 : Event.abort d ∉ e2 := fun hm =>
                  hna (List.mem_cons_of_mem _ (List.mem_append.2 (Or.inr hm)))
                have hL8 : int8 ((σ.ctxs d).handlers.length : Int) =
                    ((σ.ctxs d).handlers.length : Int) := int8_eq _ (by omega) (by omega)
                rw [hL8] at hcond
                have hlen1 : (σ1.ctxs d).handlers.length = (σ.ctxs d).handlers.length :=
                  (hE1.trans hE2).chain_length d
                have r1 := hP2 e1 he1 hna1 hin hL
                have hiL : ((σ.log (Event.handler d (σ.ctxs d).index)).ctxs d).index =
                    (σ.ctxs d).index := rfl
                have hlL : ((σ.log (Event.handler d (σ.ctxs d).index)).ctxs d).handlers =
                    (σ.ctxs d).handlers := rfl
                rw [hiL, hlL] at r1
                have hidx2 : ((σ1.incIndex d).ctxs d).index = int8 ((σ1.ctxs d).index + 1) :=
                  incIndex_index σ1 d
                have hlen2 : ((σ1.incIndex d).ctxs d).handlers.length =
                    (σ.ctxs d).handlers.length := by
                  rw [hE3.chain_length d, hlen1]
                have r2 := hLP e2 he2 hna2 (by rw [hidx2]; exact int8_inRange _)
                  (by rw [hlen2]; exact hL)
                rw [hidx2, hlen2] at r2
                obtain ⟨hneg, hLτ, h127, hle, hpos⟩ := r2
                rw [positions_handler_cons, positions_append, hpos]
                rcases r1 with ⟨a1, a2⟩ | ⟨b1, b2, b3, b4⟩
                · have h8 : int8 ((σ1.ctxs d).index + 1) = (σ.ctxs d).index + 1 := by
                    rw [a1]; exact int8_eq _ (by omega) (by omega)
                  rw [h8] at hneg hle ⊢
                  refine ⟨fun _ => by omega, hLτ, h127, by omega, ?_⟩
                  rw [a2, List.nil_append, ← span_cons _ _ hcond]
                · by_cases h127' : (σ1.ctxs d).index = 127
                  · exfalso
                    rw [h127', int8_wrap] at hneg
                    have := hneg (by omega)
                    omega
                  · have h8 : int8 ((σ1.ctxs d).index + 1) = (σ1.ctxs d).index + 1 :=
                      int8_eq _ (by omega) (by omega)
                    rw [h8] at hneg hle ⊢
                    refine ⟨fun _ => by omega, hLτ, h127, by omega, ?_⟩
                    rw [b4, span_nil ((σ1.ctxs d).index + 1) _ (by omega), List.append_nil,
                      ← span_cons _ _ hcond]
      · rw [if_neg hcond] at hrun
        simp only [Outcome.ok.injEq] at hrun
        subst hrun
        constructor
        · intro _
          exact pass_quiet [] (by simp) rfl rfl
        · intro hd
          subst hd
          intro evs htr hna hin hL
          have hevs : evs = [] := by
            have h1 : σ.trace ++ [] = σ.trace ++ evs := by simpa using htr
            exact (List.append_cancel_left h1).symm
          subst hevs
          have hL8 : int8 ((σ.ctxs d).handlers.length : Int) =
              ((σ.ctxs d).handlers.length : Int) := int8_eq _ (by omega) (by omega)
          rw [hL8] at hcond
          refine ⟨fun h => absurd h hcond, by omega, hin.2, le_refl _, ?_⟩
          rw [span_nil _ _ (by omega)]
          rfl

/-! ## The bridge in the chain -/

theorem chainLoop_exit (fuel : Nat) : ∀ (c : Nat) (σ τ : World), chainLoop fuel c σ = .ok τ →
    ¬ (τ.ctxs c).index < int8 (τ.ctxs c).handlers.length := by
  induction fuel with
  | zero => intro c σ τ hrun; simp [chainLoop] at hrun
  | succ fuel ih =>
    intro c σ τ hrun
    simp only [chainLoop] at hrun
    by_cases hcond : (σ.ctxs c).index < int8 (σ.ctxs c).handlers.length
    · rw [if_pos hcond] at hrun
      by_cases hneg : (σ.ctxs c).index < 0
      · rw [if_pos hneg] at hrun; simp at hrun
      · rw [if_neg hneg] at hrun
        cases hg : (σ.ctxs c).handlers[(σ.ctxs c).index.toNat]? with
        | none => rw [hg] at hrun; simp at hrun
        | some hf =>
          rw [hg] at hrun
          dsimp only at hrun
          cases hc : hf.call (Context.Next fuel) c (σ.log (Event.handler c (σ.ctxs c).index)) with
          | panic msg σ1 => rw [hc] at hrun; simp at hrun
          | timeout => rw [hc] at hrun; simp at hrun
          | ok σ1 =>
            rw [hc] at hrun
            exact ih c _ τ hrun
    · rw [if_neg hcond] at hrun
      simp only [Outcome.ok.injEq] at hrun
      subst hrun
      exact hcond

/-- A returning call of `Next`: its events are the beginning of the call, those of
the chain loop and the return; the loop has left the position past the chain,
within `int8`. -/
theorem next_shape (fuel c : Nat) (σ τ : World) (hrun : Context.Next fuel c σ = .ok τ) :
    ∃ inner, τ.trace = σ.trace ++ Event.next c :: (inner ++ [Event.nextDone c]) ∧
      ¬ (τ.ctxs c).index < int8 (τ.ctxs c).handlers.length ∧ InRange8 (τ.ctxs c).index := by
  cases fuel with
  | zero => simp [Context.Next] at hrun
  | succ fuel =>
    simp only [Context.Next] at hrun
    cases hl : chainLoop fuel c ((σ.log (Event.next c)).incIndex c) with
    | panic msg τ0 => rw [hl] at hrun; simp at hrun
    | timeout => rw [hl] at hrun; simp at hrun
    | ok τ0 =>
      rw [hl] at hrun
      simp only [Outcome.ok.injEq] at hrun
      subst hrun
      have hE := ((sat_Next_chainLoop fuel).2 c _).of_ok hl
      obtain ⟨e, he⟩ := hE.trace
      refine ⟨e, ?_, chainLoop_exit fuel c _ τ0 hl, ?_⟩
      · simp [World.log, he, World.incIndex]
      · have := (hE.2.2.2 c).2 (by rw [incIndex_index]; exact int8_inRange _)
        exact this

/-- A handler body that makes exactly one sentinel invocation: its run is a change
of the response store, the invocation, and a rest that makes no invocation. -/
theorem invocations_once (Next : Nat → World → Outcome) (p : HandlerProg) :
    ∀ (σ : World) (h1 : Nat) (v : Option Value), p.invocations Next σ = [(h1, v)] →
      ∃ (w : ResponseWriter) (r : Request) (st : Store) (k : HandlerProg),
        r.Context.Value (Key.connectHandlerPtr h1) = v ∧
        p.run Next σ =
          (match connectHandler.ServeHTTP Next h1 w r
              (({ σ with store := st }).log (Event.connect h1 v)) with
            | .ok σ1 => k.run Next σ1
            | o => o) ∧
        ∀ σ1, connectHandler.ServeHTTP Next h1 w r
            (({ σ with store := st }).log (Event.connect h1 v)) = .ok σ1 →
          k.invocations Next σ1 = [] := by
  induction p with
  | ret => intro σ h1 v hi; simp [HandlerProg.invocations] at hi
  | panic msg => intro σ h1 v hi; simp [HandlerProg.invocations] at hi
  | store f k ih =>
    intro σ h1 v hi
    simp only [HandlerProg.invocations] at hi
    obtain ⟨w, r, st, k', hv, hrun, hq⟩ := ih _ _ h1 v hi
    exact ⟨w, r, st, k', hv, by simp only [HandlerProg.run]; exact hrun, hq⟩
  | callConnect h w r k _ =>
    intro σ h1 v hi
    simp only [HandlerProg.invocations, List.cons.injEq, Prod.mk.injEq] at hi
    obtain ⟨⟨hh, hv⟩, hrest⟩ := hi
    subst hh
    refine ⟨w, r, σ.store, k, hv, ?_, ?_⟩
    · simp only [HandlerProg.run, hv]
    · intro σ1 hs
      rw [hv] at hrest
      have : ({ σ with store := σ.store } : World) = σ := rfl
      rw [this] at hs
      rw [hs] at hrest
      exact hrest

/-- A handler body that makes no sentinel invocation returns or panics, having
changed the response store only. -/
theorem invocations_nil (Next : Nat → World → Outcome) (p : HandlerProg) :
    ∀ σ : World, p.invocations Next σ = [] →
      ∃ st, p.run Next σ = .ok { σ with store := st } ∨
        ∃ msg, p.run Next σ = .panic msg { σ with store := st } := by
  induction p with
  | ret => intro σ _; exact ⟨σ.store, Or.inl rfl⟩
  | panic msg => intro σ _; exact ⟨σ.store, Or.inr ⟨msg, rfl⟩⟩
  | store f k ih =>
    intro σ hi
    simp only [HandlerProg.invocations] at hi
    obtain ⟨st, h⟩ := ih _ _ hi
    exact ⟨st, by simp only [HandlerProg.run]; exact h⟩
  | callConnect h w r k _ => intro σ hi; simp [HandlerProg.invocations] at hi

/-- The chain loop at the position of a bridge: it records the run, calls the
generated handler and goes on from the next position. -/
theorem chainLoop_at_bridge (fuel c i nextHandler : Nat) (h : Handler) (σ : World)
    (hidx : (σ.ctxs c).index = (i : Int))
    (hget : (σ.ctxs c).handlers[i]? = some (HandlerFunc.adapted nextHandler h))
    (hlen : (σ.ctxs c).handlers.length ≤ 64) :
    chainLoop (fuel + 1) c σ =
      match makeGinHandler (Context.Next fuel) nextHandler h c
          (σ.log (Event.handler c (i : Int))) with
      | .ok σ1 => chainLoop fuel c (σ1.incIndex c)
      | o => o := by
  have hi : i < (σ.ctxs c).handlers.length := by
    by_contra hn
    rw [List.getElem?_eq_none (by omega)] at hget
    exact Option.noConfusion hget
  simp only [chainLoop]
  rw [hidx, int8_eq _ (by omega) (by omega)]
  have hlt : (i : Int) < ((σ.ctxs c).handlers.length : Int) := by exact_mod_cast hi
  have hnn : ¬ (i : Int) < 0 := by omega
  rw [if_pos hlt, if_neg hnn, Int.toNat_ofNat, hget]
  rfl

theorem restore_keeps (c : Nat) (r0 : Request) (w0 : GinResponseWriter) (τ : World) :
    ((τ.setWriter c w0).setRequest c r0).trace = τ.trace ∧
    ((τ.setWriter c w0).setRequest c r0).states = τ.states ∧
    ∀ d, (((τ.setWriter c w0).setRequest c r0).ctxs d).index = (τ.ctxs d).index ∧
      (((τ.setWriter c w0).setRequest c r0).ctxs d).handlers = (τ.ctxs d).handlers := by
  refine ⟨rfl, rfl, ?_⟩
  intro d
  by_cases hd : d = c
  · subst hd; simp [World.setWriter, World.setRequest]
  · simp [World.setWriter, World.setRequest, Function.update_noteq hd]

/-- The chain loop resumed after a handler returned, when the position is already
past the chain: it runs no handler; it stops, or panics on an index that has
overflowed `int8`. -/
theorem chainLoop_after_pass (fuel c : Nat) (σ : World)
    (hexit : ¬ (σ.ctxs c).index < int8 (σ.ctxs c).handlers.length)
    (hin : InRange8 (σ.ctxs c).index) :
    chainLoop (fuel + 1) c (σ.incIndex c) = .ok (σ.incIndex c) ∨
    ∃ msg, chainLoop (fuel + 1) c (σ.incIndex c) = .panic msg (σ.incIndex c) := by
  simp only [chainLoop]
  have hidx := incIndex_index σ c
  have hlen : ((σ.incIndex c).ctxs c).handlers = (σ.ctxs c).handlers :=
    ((ext_incIndex σ c).2.2.2 c).1
  rw [hidx, hlen]
  by_cases hcond : int8 ((σ.ctxs c).index + 1) < int8 (σ.ctxs c).handlers.length
  · rw [if_pos hcond]
    have hneg : int8 ((σ.ctxs c).index + 1) < 0 := by
      by_cases h127 : (σ.ctxs c).index = 127
      · rw [h127, int8_wrap]; omega
      · exfalso
        have h8 := int8_eq ((σ.ctxs c).index + 1) (by have := hin.1; omega)
          (by have := hin.2; omega)
        rw [h8] at hcond
        omega
    rw [if_pos hneg]
    exact Or.inr ⟨_, rfl⟩
  · rw [if_neg hcond]
    exact Or.inl rfl

theorem bridgeEntry_facts (c h1 : Nat) (i : Int) (w : ResponseWriter) (r : Request)
    (st : Store) (σ : World) :
    (bridgeEntry c h1 i w r st σ).trace =
      σ.trace ++ [Event.handler c i, Event.connect h1 (some (Value.middlewareCtxPtr σ.free))] ∧
    (bridgeEntry c h1 i w r st σ).free = σ.free + 1 ∧
    ((bridgeEntry c h1 i w r st σ).states σ.free).childCalled = true ∧
    ((bridgeEntry c h1 i w r st σ).ctxs c).index = (σ.ctxs c).index ∧
    ((bridgeEntry c h1 i w r st σ).ctxs c).handlers = (σ.ctxs c).handlers := by
  refine ⟨?_, rfl, ?_, ?_, ?_⟩
  · simp [bridgeEntry, connectHandler.enter, World.setChildCalled, World.setWriter,
      World.setRequest, World.log, makeGinHandler.start]
  · simp [bridgeEntry, connectHandler.enter, World.setChildCalled]
  · simp [bridgeEntry, connectHandler.enter, World.setChildCalled, World.setWriter,
      World.setRequest, World.log, makeGinHandler.start]
  · simp [bridgeEntry, connectHandler.enter, World.setChildCalled, World.setWriter,
      World.setRequest, World.log, makeGinHandler.start]

/-- The run of the chain loop from a bridge whose middleware makes exactly one
sentinel invocation, carrying this invocation's relay record, in terms of the one
call of `Next` the sentinel makes: the loop runs out of fuel when the call does,
panics with the message of the call when the call panics, and when the call
returns it returns or panics without another event. -/
theorem bridge_cases (fuel c i nextHandler h1 : Nat) (h : Handler) (σ : World)
    (hidx : (σ.ctxs c).index = (i : Int))
    (hget : (σ.ctxs c).handlers[i]? = some (HandlerFunc.adapted nextHandler h))
    (hlen : (σ.ctxs c).handlers.length ≤ 64)
    (honce : (h (σ.ctxs c).Writer.toResponseWriter
        (makeGinHandler.request nextHandler c (σ.log (Event.handler c (i : Int))))).invocations
          (Context.Next fuel) (makeGinHandler.start c (σ.log (Event.handler c (i : Int)))) =
      [(h1, some (Value.middlewareCtxPtr σ.free))]) :
    ∃ (w : ResponseWriter) (r : Request) (st : Store),
      (Context.Next fuel c (bridgeEntry c h1 i w r st σ) = .timeout →
        chainLoop (fuel + 1) c σ = .timeout) ∧
      (∀ msg τ, Context.Next fuel c (bridgeEntry c h1 i w r st σ) = .panic msg τ →
        ∃ σ', chainLoop (fuel + 1) c σ = .panic msg σ' ∧ σ'.trace = τ.trace) ∧
      (∀ τ, Context.Next fuel c (bridgeEntry c h1 i w r st σ) = .ok τ →
        ∃ σ', (chainLoop (fuel + 1) c σ = .ok σ' ∨
          ∃ msg, chainLoop (fuel + 1) c σ = .panic msg σ') ∧ σ'.trace = τ.trace) := by
  obtain ⟨w, r, st, k, hv, hrun, hq⟩ := invocations_once (Context.Next fuel) _ _ h1 _ honce
  have hctx : ((({ makeGinHandler.start c (σ.log (Event.handler c (i : Int))) with
      store := st } : World).log
        (Event.connect h1 (some (Value.middlewareCtxPtr σ.free)))).states σ.free).ctx = c := by
    simp [makeGinHandler.start, World.log]
  have hserve := ServeHTTP_of_relay (Context.Next fuel) h1 w r
    (({ makeGinHandler.start c (σ.log (Event.handler c (i : Int))) with store := st } : World).log
      (Event.connect h1 (some (Value.middlewareCtxPtr σ.free)))) σ.free hv
  rw [hctx] at hserve
  have hentry : connectHandler.enter σ.free w r
      (({ makeGinHandler.start c (σ.log (Event.handler c (i : Int))) with store := st } : World).log
        (Event.connect h1 (some (Value.middlewareCtxPtr σ.free)))) =
      bridgeEntry c h1 i w r st σ := rfl
  rw [hentry] at hserve
  rw [hserve] at hrun hq
  have hloop := chainLoop_at_bridge fuel c i nextHandler h σ hidx hget hlen
  rw [makeGinHandler_eq] at hloop
  have hreq : (σ.log (Event.handler c (i : Int))).ctxs = σ.ctxs := rfl
  rw [hreq] at hloop
  rw [hrun] at hloop
  refine ⟨w, r, st, ?_, ?_, ?_⟩
  · intro hN
    rw [hloop, hN]
    rfl
  · intro msg τ hN
    rw [hloop, hN]
    exact ⟨_, rfl, rfl⟩
  · intro τ hN
    rw [hN] at hq hloop
    simp only [Outcome.unwind, runDeferred_pair] at hq hloop
    obtain ⟨hf1, hf2, hf3, hf4, _⟩ := bridgeEntry_facts c h1 i w r st σ
    obtain ⟨inner, _, hexit, hin⟩ := next_shape fuel c _ τ hN
    have hflagτ : (τ.states σ.free).childCalled = true := by
      have hE := (goodNext_Next fuel c (bridgeEntry c h1 i w r st σ)).of_ok hN
      obtain ⟨_, _, ⟨e, _, hiff⟩, _⟩ := hE
      exact (hiff σ.free (by rw [hf2]; exact Nat.lt_succ_self _)).2 (Or.inl hf3)
    generalize hσ1 : (τ.setWriter _ _).setRequest _ _ = σ1 at hq hloop
    have hs1 : σ1.states = τ.states := by rw [← hσ1]; rfl
    have ht1 : σ1.trace = τ.trace := by rw [← hσ1]; rfl
    have hc1 : (σ1.ctxs c).index = (τ.ctxs c).index ∧
        (σ1.ctxs c).handlers = (τ.ctxs c).handlers := by
      rw [← hσ1]; exact (restore_keeps _ _ _ τ).2.2 c
    have hfree : (σ.log (Event.handler c (i : Int))).free = σ.free := rfl
    rw [hfree] at hloop
    obtain ⟨st2, hk | ⟨msg, hk⟩⟩ := invocations_nil (Context.Next fuel) k _ (hq _ rfl)
    · rw [hk] at hloop
      dsimp only at hloop
      have hflag2 : (σ1.states σ.free).childCalled = true := by rw [hs1]; exact hflagτ
      rw [hflag2] at hloop
      simp only [Bool.not_true, Bool.false_eq_true, if_false] at hloop
      cases fuel with
      | zero => simp [Context.Next] at hN
      | succ f =>
        rw [hloop]
        have hcl := chainLoop_after_pass f c { σ1 with store := st2 }
          (by
            show ¬ (σ1.ctxs c).index < int8 (σ1.ctxs c).handlers.length
            rw [hc1.1, hc1.2]; exact hexit)
          (by
            show InRange8 (σ1.ctxs c).index
            rw [hc1.1]; exact hin)
        rcases hcl with hcl | ⟨msg, hcl⟩
        · exact ⟨_, Or.inl hcl, ht1⟩
        · exact ⟨_, Or.inr ⟨msg, hcl⟩, ht1⟩
    · rw [hk] at hloop
      dsimp only at hloop
      exact ⟨_, Or.inr ⟨msg, hloop⟩, ht1⟩

/-- C9 (amended): the chain loop reaches the bridge at position `i` of a chain of at
most 64 handlers, and the middleware makes exactly one sentinel invocation, with
a request carrying the relay record of this invocation. Then the sentinel calls
`Next` once, in the world `bridgeEntry`: the loop runs out of fuel exactly when
that call does, ends with the trace that call ends with, and returns only if
that call returns. When the loop returns, its events are the run of the bridge,
the invocation, and the events of that one call from its beginning to its
return, nothing after; and if `c.Abort()` was not called, every handler after
the bridge ran exactly once. -/
theorem sentinel_runs_chain_once (fuel c i nextHandler h1 : Nat) (h : Handler) (σ : World)
    (hidx : (σ.ctxs c).index = (i : Int))
    (hget : (σ.ctxs c).handlers[i]? = some (HandlerFunc.adapted nextHandler h))
    (hlen : (σ.ctxs c).handlers.length ≤ 64)
    (honce : (h (σ.ctxs c).Writer.toResponseWriter
        (makeGinHandler.request nextHandler c (σ.log (Event.handler c (i : Int))))).invocations
          (Context.Next fuel) (makeGinHandler.start c (σ.log (Event.handler c (i : Int)))) =
      [(h1, some (Value.middlewareCtxPtr σ.free))]) :
    (∃ (w : ResponseWriter) (r : Request) (st : Store),
      (chainLoop (fuel + 1) c σ = .timeout ↔
        Context.Next fuel c (bridgeEntry c h1 i w r st σ) = .timeout) ∧
      (chainLoop (fuel + 1) c σ).world.trace =
        (Context.Next fuel c (bridgeEntry c h1 i w r st σ)).world.trace ∧
      (∀ σ', chainLoop (fuel + 1) c σ = .ok σ' →
        ∃ τ, Context.Next fuel c (bridgeEntry c h1 i w r st σ) = .ok τ)) ∧
    (∀ σ' evs, chainLoop (fuel + 1) c σ = .ok σ' → σ'.trace = σ.trace ++ evs →
      (∃ inner, evs = Event.handler c (i : Int) ::
        Event.connect h1 (some (Value.middlewareCtxPtr σ.free)) ::
        Event.next c :: (inner ++ [Event.nextDone c])) ∧
      (Event.abort c ∉ evs → ∀ j : Nat, i < j → j < (σ.ctxs c).handlers.length →
        evs.count (Event.handler c (j : Int)) = 1)) := by
  obtain ⟨w, r, st, hT, hPn, hO⟩ :=
    bridge_cases fuel c i nextHandler h1 h σ hidx hget hlen honce
  have hi : i < (σ.ctxs c).handlers.length := by
    by_contra hn
    rw [List.getElem?_eq_none (by omega)] at hget
    exact Option.noConfusion hget
  constructor
  · refine ⟨w, r, st, ?_⟩
    cases hN : Context.Next fuel c (bridgeEntry c h1 i w r st σ) with
    | timeout =>
      have hl := hT hN
      rw [hl]
      exact ⟨Iff.rfl, rfl, fun σ' h' => Outcome.noConfusion h'⟩
    | panic msg τ =>
      obtain ⟨σ', hl, ht⟩ := hPn msg τ hN
      rw [hl]
      exact ⟨⟨fun h' => Outcome.noConfusion h', fun h' => Outcome.noConfusion h'⟩, ht,
        fun σ'' h' => Outcome.noConfusion h'⟩
    | ok τ =>
      obtain ⟨σ', hl | ⟨msg, hl⟩, ht⟩ := hO τ hN
      · rw [hl]
        exact ⟨⟨fun h' => Outcome.noConfusion h', fun h' => Outcome.noConfusion h'⟩, ht,
          fun _ _ => ⟨τ, rfl⟩⟩
      · rw [hl]
        exact ⟨⟨fun h' => Outcome.noConfusion h', fun h' => Outcome.noConfusion h'⟩, ht,
          fun _ _ => ⟨τ, rfl⟩⟩
  · intro σ' evs hl htr
    cases hN : Context.Next fuel c (bridgeEntry c h1 i w r st σ) with
    | timeout => rw [hT hN] at hl; exact Outcome.noConfusion hl
    | panic msg τ =>
      obtain ⟨σ'', hl', _⟩ := hPn msg τ hN
      rw [hl'] at hl
      exact Outcome.noConfusion hl
    | ok τ =>
      obtain ⟨σ'', hl', ht⟩ := hO τ hN
      have hσ : σ'' = σ' := by
        rcases hl' with hl' | ⟨msg, hl'⟩
        · rw [hl'] at hl
          exact Outcome.ok.inj hl
        · rw [hl'] at hl
          exact Outcome.noConfusion hl
      subst hσ
      obtain ⟨hf1, _, _, hf4, hf5⟩ := bridgeEntry_facts c h1 i w r st σ
      obtain ⟨inner, hsh, hexit, _⟩ := next_shape fuel c _ τ hN
      have hevs : evs = Event.handler c (i : Int) ::
          Event.connect h1 (some (Value.middlewareCtxPtr σ.free)) ::
          Event.next c :: (inner ++ [Event.nextDone c]) := by
        rw [ht, hsh, hf1] at htr
        simp only [List.append_assoc, List.cons_append, List.nil_append] at htr
        exact (List.append_cancel_left htr).symm
      refine ⟨⟨inner, hevs⟩, ?_⟩
      intro hna j hj hjl
      have hE := (goodNext_Next fuel c (bridgeEntry c h1 i w r st σ)).of_ok hN
      have hpass := (pass_Next_chainLoop c fuel).1 c _ τ hN
      have hnaN : Event.abort c ∉ Event.next c :: (inner ++ [Event.nextDone c]) := by
        intro hm
        apply hna
        rw [hevs]
        exact List.mem_cons_of_mem _ (List.mem_cons_of_mem _ hm)
      have hr := hpass (Event.next c :: (inner ++ [Event.nextDone c])) hsh hnaN
        (by rw [hf4, hidx]; unfold InRange8; omega) (by rw [hf5]; exact hlen)
      rw [hf4, hf5, hidx] at hr
      have hlenτ : (τ.ctxs c).handlers.length = (σ.ctxs c).handlers.length := by
        rw [hE.chain_length c, hf5]
      rw [hlenτ, int8_eq _ (by omega) (by omega)] at hexit
      have hpos : positions c (Event.next c :: (inner ++ [Event.nextDone c])) =
          span ((i : Int) + 1) (σ.ctxs c).handlers.length := by
        rcases hr with ⟨a1, _⟩ | ⟨_, _, _, b4⟩
        · exfalso
          rw [a1] at hexit
          omega
        · exact b4
      rw [count_handler_positions, hevs, positions_handler_cons]
      have hcn : positions c (Event.connect h1 (some (Value.middlewareCtxPtr σ.free)) ::
          Event.next c :: (inner ++ [Event.nextDone c])) =
          positions c (Event.next c :: (inner ++ [Event.nextDone c])) := by
        simp [positions, Event.position, List.filterMap_cons]
      rw [hcn, hpos, List.count_cons, count_span _ _ _ (by omega) (by omega)]
      have hne : ((i : Int) == (j : Int)) = false := by
        simp only [beq_eq_false_iff_ne, ne_eq]
        omega
      simp [hne]

theorem sentinel_runs_chain_once_witness :
    [Event.handler 0 0, Event.connect 0 (some (Value.middlewareCtxPtr 1)), Event.next 0,
      Event.handler 0 1, Event.next 0, Event.handler 0 2,
      Event.connect 0 (some (Value.middlewareCtxPtr 2)), Event.next 0, Event.handler 0 3,
      Event.nextDone 0, Event.nextDone 0,
      Event.nextDone 0].count (Event.handler 0 ((3 : Nat) : Int)) = 1 :=
  ((sentinel_runs_chain_once 8 0 0 0 0 (testMiddleware 0) ((world0 nestedChain).incIndex 0)
    rfl rfl (by decide) (by decide)).2
      (chainLoop 9 0 ((world0 nestedChain).incIndex 0)).world
      [Event.handler 0 0, Event.connect 0 (some (Value.middlewareCtxPtr 1)), Event.next 0,
        Event.handler 0 1, Event.next 0, Event.handler 0 2,
        Event.connect 0 (some (Value.middlewareCtxPtr 2)), Event.next 0, Event.handler 0 3,
        Event.nextDone 0, Event.nextDone 0, Event.nextDone 0]
      rfl rfl).2 (by decide) 3 (by decide) (by decide)

/-- C9: three requests in each of which the middleware invokes the sentinel exactly
once and a handler registered after the bridge does not run. On
`freshRequestChain` the sentinel is given a fresh request, without the relay
record, and the request ends in the panic of the type assertion. On
`abortingChain` and `panickingChain` the sentinel is given the relay record and
the first handler after the bridge aborts the chain, respectively panics. -/
theorem handlers_after_bridge_not_run :
    ((freshRequestMiddleware 0 recorder.toResponseWriter
        (makeGinHandler.request 0 0 (atFirstHandler freshRequestChain))).invocations (Context.Next 3)
          (makeGinHandler.start 0 (atFirstHandler freshRequestChain)) = [(0, none)] ∧
      (Context.Next 5 0 (world0 freshRequestChain)).world.trace =
        [Event.next 0, Event.handler 0 0, Event.connect 0 none] ∧
      (Context.Next 5 0 (world0 freshRequestChain)).world.trace.count (Event.handler 0 1) = 0 ∧
      Context.Next 5 0 (world0 freshRequestChain) =
        .panic "interface conversion: interface is not *adapter.middlewareCtx"
          (Context.Next 5 0 (world0 freshRequestChain)).world) ∧
    ((testMiddleware 0 recorder.toResponseWriter
        (makeGinHandler.request 0 0 (atFirstHandler abortingChain))).invocations (Context.Next 3)
          (makeGinHandler.start 0 (atFirstHandler abortingChain)) =
        [(0, some (Value.middlewareCtxPtr 1))] ∧
      (Context.Next 5 0 (world0 abortingChain)).world.trace =
        [Event.next 0, Event.handler 0 0, Event.connect 0 (some (Value.middlewareCtxPtr 1)),
          Event.next 0, Event.handler 0 1, Event.abort 0, Event.nextDone 0, Event.nextDone 0] ∧
      (Context.Next 5 0 (world0 abortingChain)).world.trace.count (Event.handler 0 2) = 0 ∧
      Context.Next 5 0 (world0 abortingChain) =
        .ok (Context.Next 5 0 (world0 abortingChain)).world) ∧
    ((testMiddleware 0 recorder.toResponseWriter
        (makeGinHandler.request 0 0 (atFirstHandler panickingChain))).invocations (Context.Next 3)
          (makeGinHandler.start 0 (atFirstHandler panickingChain)) =
        [(0, some (Value.middlewareCtxPtr 1))] ∧
      (Context.Next 5 0 (world0 panickingChain)).world.trace.count (Event.handler 0 2) = 0 ∧
      Context.Next 5 0 (world0 panickingChain) =
        .panic "boom" (Context.Next 5 0 (world0 panickingChain)).world) :=
  ⟨⟨by decide, by decide, by decide, rfl⟩, ⟨by decide, by decide, by decide, rfl⟩,
    ⟨by decide, by decide, rfl⟩⟩

/-! ## The writer seen by the handlers after the bridge -/

/-- C5: when the middleware invokes the sentinel with a writer `w` (and a request
carrying a relay record), the sentinel calls `Next` in a world where `Write` on
the Writer of the gin context is `w.Write`; a handler whose body is
`c.Writer.Write(b)`, run there, leaves the store that `w.Write b` leaves. A bridge
built with `Wrap f` is the generated handler of `New` for `f` applied to the
sentinel, so the same holds for it. -/
theorem write_goes_to_middleware_writer (Next Next' : Nat → World → Outcome) (h : Nat)
    (w : ResponseWriter) (r : Request) (σ : World) (state : Nat) (b : List Nat)
    (hrel : r.Context.Value (Key.connectHandlerPtr h) = some (Value.middlewareCtxPtr state)) :
    connectHandler.ServeHTTP Next h w r σ =
      (Next (σ.states state).ctx (connectHandler.enter state w r σ)).unwind state
        [Deferred.restoreRequest (σ.ctxs (σ.states state).ctx).Request,
         Deferred.restoreWriter (σ.ctxs (σ.states state).ctx).Writer] ∧
    ((connectHandler.enter state w r σ).ctxs (σ.states state).ctx).Writer.Write = w.Write ∧
    ((writeBytes b).run Next' (σ.states state).ctx
      (connectHandler.enter state w r σ)).world.store = (w.Write b σ.store).2 ∧
    ∀ (f : Nat → Handler) (free c : Nat) (τ : World),
      (Wrap f free).1.call Next c τ =
        makeGinHandler Next (New free).1.1 (f (New free).1.1) c τ := by
  have hw : ((connectHandler.enter state w r σ).ctxs (σ.states state).ctx).Writer.Write =
      w.Write := by
    simp only [connectHandler.enter, World.setChildCalled, World.setWriter, World.setRequest,
      Function.update_same]
    rfl
  refine ⟨ServeHTTP_of_relay Next h w r σ state hrel, hw, ?_, fun _ _ _ _ => rfl⟩
  simp only [writeBytes, GinProg.run, Outcome.world, hw]
  rfl

theorem write_goes_to_middleware_writer_witness :
    ((writeBytes [116, 101, 115, 116]).run (Context.Next 1) ((world1 wrapChain).states 1).ctx
      (connectHandler.enter 1 (newTestMiddlewareWriter recorder.toResponseWriter) (req1 0)
        (world1 wrapChain))).world.store =
      ((newTestMiddlewareWriter recorder.toResponseWriter).Write [116, 101, 115, 116]
        (world1 wrapChain).store).2 :=
  (write_goes_to_middleware_writer (Context.Next 3) (Context.Next 1) 0
    (newTestMiddlewareWriter recorder.toResponseWriter) (req1 0) (world1 wrapChain) 1
    [116, 101, 115, 116] (by decide)).2.2.1

/-- The scenario of `TestWrap`: the request completes and the response carries the
header the middleware's writer sets on `Write`, next to the one the middleware set. -/
theorem testWrap_response :
    (Context.Next 5 0 (world0 wrapChain)).world.store.headers =
      [("Middle-Header", "true"), ("Middle-Write", "true")] ∧
    (Context.Next 5 0 (world0 wrapChain)).world.store.body = [116, 101, 115, 116] ∧
    (Context.Next 5 0 (world0 wrapChain)).world.trace =
      [Event.next 0, Event.handler 0 0, Event.connect 0 (some (Value.middlewareCtxPtr 1)),
        Event.next 0, Event.handler 0 1, Event.nextDone 0, Event.nextDone 0] :=
  ⟨by decide, by decide, by decide⟩

/-- The scenario of `TestContextPassthrough`: the request completes with the three
headers set; the context value is absent for the outer handler before and after
its `Next` and present for the terminal handler, which runs once. -/
theorem testContextPassthrough_response :
    (Context.Next 8 0 (world0 passthroughChain)).world.store.headers =
      [("Outer-Pre", "true"), ("Middle-Header", "true"), ("Outer-Post", "true")] ∧
    (Context.Next 8 0 (world0 passthroughChain)).world.store.calls =
      ["Header.Set outer-pre", "pre=nil", "Header.Set middle-header", "final=value",
        "Header.Set outer-post", "post=nil"] ∧
    (Context.Next 8 0 (world0 passthroughChain)).world.trace =
      [Event.next 0, Event.handler 0 0, Event.next 0, Event.handler 0 1,
        Event.connect 0 (some (Value.middlewareCtxPtr 1)), Event.next 0, Event.handler 0 2,
        Event.nextDone 0, Event.nextDone 0, Event.nextDone 0] :=
  ⟨by decide, by decide, by decide⟩

/-- The scenario of `TestAbort`: the request completes with the middleware's header
only, the chain is aborted and the terminal handler has not run. -/
theorem testAbort_response :
    (Context.Next 5 0 (world0 abortChain)).world.store.headers = [("Middle-Header", "true")] ∧
    (Context.Next 5 0 (world0 abortChain)).world.store.calls = ["Header.Set middle-header"] ∧
    (Context.Next 5 0 (world0 abortChain)).world.trace =
      [Event.next 0, Event.handler 0 0, Event.abort 0, Event.nextDone 0] :=
  ⟨by decide, by decide, by decide⟩

/-! ## The context key of a bridge -/

/-- C7: two calls of `New`, at any two states of the allocator, return the same
sentinel address; the request the generated handler of the first bridge builds
holds its relay record under the key of the second bridge's sentinel, and that
sentinel, invoked with it, calls `Next` instead of panicking. -/
theorem New_sentinels_share_key (free1 free2 : Nat) (Next : Nat → World → Outcome)
    (w : ResponseWriter) (c : Nat) (σ τ : World) :
    (New free1).1.1 = (New free2).1.1 ∧
    (makeGinHandler.request (New free1).1.1 c σ).Context.Value
        (Key.connectHandlerPtr (New free2).1.1) = some (Value.middlewareCtxPtr σ.free) ∧
    connectHandler.ServeHTTP Next (New free2).1.1 w
        (makeGinHandler.request (New free1).1.1 c σ) τ =
      (Next (τ.states σ.free).ctx (connectHandler.enter σ.free w
          (makeGinHandler.request (New free1).1.1 c σ) τ)).unwind σ.free
        [Deferred.restoreRequest (τ.ctxs (τ.states σ.free).ctx).Request,
         Deferred.restoreWriter (τ.ctxs (τ.states σ.free).ctx).Writer] := by
  have hkey : (New free1).1.1 = (New free2).1.1 := by
    simp [New, mallocgc, connectHandler.sizeof]
  have hval : (makeGinHandler.request (New free1).1.1 c σ).Context.Value
      (Key.connectHandlerPtr (New free2).1.1) = some (Value.middlewareCtxPtr σ.free) := by
    rw [← hkey]
    simp [makeGinHandler.request, Request.WithContext, Request.Context, WithValue, Ctx.Value]
  exact ⟨hkey, hval, ServeHTTP_of_relay Next _ w _ τ σ.free hval⟩

end Adapter
